import Mathlib

/-!
# SequenceCapture

A shallow embedding of `lib/local/Utilities/src/SequenceCapture.cpp`: the frame
source that binds to a webcam, a video file or a directory of images and hands
out frames one at a time.

* C++ `float` and `double` values are rationals rounded to 24 and 53 significant
  bits (round to nearest, ties to even), plus the non-finite values.
* `cv::VideoCapture`, `cv::imread`, the directory iterator and the stream
  extraction operator are external collaborators: they are the fields of
  `Backend`, and every result below holds for every backend.
* the object is a `State` record that each member function passes along; the
  field `log` is a ghost trace of the collaborator calls made so far.
* `arguments[i]` on a `std::vector` is unchecked; reading past the end is
  reported as `Fault.outOfRange`.
-/

namespace Fp

/-- Round a rational to the nearest integer, ties going to the even one. -/
def rne (x : ℚ) : ℤ :=
  if x - ⌊x⌋ < 1 / 2 then ⌊x⌋
  else if 1 / 2 < x - ⌊x⌋ then ⌊x⌋ + 1
  else if ⌊x⌋ % 2 = 0 then ⌊x⌋ else ⌊x⌋ + 1

/-- Round a rational to `p` significant bits, the IEEE 754 default rounding
(nearest, ties to even) of a format with a `p` bit significand. The exponent is
unbounded: the result is the machine result whenever that is a normal number,
which is the case for every operation below (their operands come from frame
sizes and frame counters). -/
def rnd (p : ℕ) (q : ℚ) : ℚ :=
  if q = 0 then 0 else rne (q / 2 ^ (Int.log 2 |q| - (p - 1))) * 2 ^ (Int.log 2 |q| - (p - 1))

end Fp

/-- A value of a C++ `float` or `double`: a finite number, an infinity or NaN. -/
inductive Fp where
  | fin (q : ℚ)
  | inf (neg : Bool)
  | nan
  deriving DecidableEq

namespace Fp

/-- The comparison `x != x`. -/
def isNaN : Fp → Bool
  | nan => true
  | _ => false

/-- The comparison `x <= 0`. -/
def leZero : Fp → Bool
  | fin q => decide (q ≤ 0)
  | inf neg => neg
  | nan => false

/-- The cast `(int)x` of a `double`: truncation toward zero. Outside the range of
`int` (and for NaN) the cast is undefined in C++; the value taken here is the one
x86 produces, `INT_MIN`. -/
def toInt : Fp → ℤ
  | fin q =>
    let t : ℤ := if 0 ≤ q then ⌊q⌋ else ⌈q⌉
    if -2 ^ 31 ≤ t ∧ t < 2 ^ 31 then t else -2 ^ 31
  | _ => -2 ^ 31

end Fp

namespace F32

/-- Conversion of an `int` to `float`. -/
def ofInt (n : ℤ) : ℚ := Fp.rnd 24 n

/-- Single precision `a / b` for finite `a` and non-zero finite `b`. -/
def div (a b : ℚ) : ℚ := Fp.rnd 24 (a / b)

/-- Single precision `a * b` on finite operands. -/
def mul (a b : ℚ) : ℚ := Fp.rnd 24 (a * b)

/-- Single precision `a + b` on finite operands. -/
def add (a b : ℚ) : ℚ := Fp.rnd 24 (a + b)

end F32

namespace F64

/-- Conversion of an integer to `double`. -/
def ofInt (n : ℤ) : ℚ := Fp.rnd 53 n

/-- Double precision `a / b` on finite operands, with the IEEE results for a
zero divisor. -/
def div (a b : ℚ) : Fp :=
  if b = 0 then (if a = 0 then Fp.nan else Fp.inf (decide (a < 0)))
  else Fp.fin (Fp.rnd 53 (a / b))

/-- Double precision `1.0 / x`. Zero has no sign here: `1.0 / 0` is the positive
infinity. -/
def inv : Fp → Fp
  | Fp.fin q => div 1 q
  | Fp.inf _ => Fp.fin 0
  | Fp.nan => Fp.nan

/-- Double precision `a * x` for a finite `a`. -/
def mul (a : ℚ) : Fp → Fp
  | Fp.fin q => Fp.fin (Fp.rnd 53 (a * q))
  | Fp.inf neg => if a = 0 then Fp.nan else Fp.inf (xor neg (decide (a < 0)))
  | Fp.nan => Fp.nan

end F64

namespace SequenceCapture

/-- An image buffer (`cv::Mat`). -/
structure Mat where
  cols : ℤ
  rows : ℤ
  data : List ℕ
  deriving DecidableEq

/-- The empty image `cv::Mat()`. -/
def Mat.empty : Mat := ⟨0, 0, []⟩

/-- The capture properties this class reads or writes. -/
inductive CapProp where
  | frameWidth
  | frameHeight
  | fps
  | frameCount
  deriving DecidableEq

/-- One call made to an external collaborator. -/
inductive Call where
  | capOpenDevice (device : ℤ)
  | capOpenFile (file : String)
  | capSet (prop : CapProp) (value : ℤ)
  | capGet (prop : CapProp)
  | capIsOpened
  | capRead
  | capRelease
  | imread (file : String)
  | listDirectory (directory : String)
  | getTickCount
  | currentDateTime
  deriving DecidableEq

/-- The external collaborators of the class, over the state `Cap` of a
`cv::VideoCapture` handle. -/
structure Backend (Cap : Type) where
  /-- The one character string of `boost::filesystem::path::preferred_separator`. -/
  separator : String
  /-- The extraction `data >> device` of an `int` from the text of a token; the
  second argument is the value the variable held before. -/
  parseInt : String → ℤ → ℤ
  /-- The extraction `data >> fx` of a `float`. -/
  parseFloat : String → Fp → Fp
  /-- The call `capture.open(device)`. -/
  capOpenDevice : Cap → ℤ → Cap
  /-- The call `capture.open(video_file)`. -/
  capOpenFile : Cap → String → Cap
  /-- The call `capture.set(prop, value)`. -/
  capSet : Cap → CapProp → ℤ → Cap
  /-- The call `capture.get(prop)`, a `double`. -/
  capGet : Cap → CapProp → Fp
  /-- The call `capture.isOpened()`. -/
  capIsOpened : Cap → Bool
  /-- The call `capture.read(latest_frame)`: the new handle state and the frame,
  `none` when the call reports failure. -/
  capRead : Cap → Cap × Option Mat
  /-- The call `capture.release()`. -/
  capRelease : Cap → Cap
  /-- The call `cv::imread(file, CV_LOAD_IMAGE_COLOR)`. -/
  imread : String → Mat
  /-- The paths a `boost::filesystem::directory_iterator` over the directory
  yields. -/
  listDirectory : String → List String
  /-- The helper `ConvertToGrayscale_8bit`. -/
  toGray : Mat → Mat
  /-- The call `cv::getTickCount()`: the reading the clock gives at its `n`-th
  call, counted from 0. -/
  getTickCount : ℕ → ℤ
  /-- The call `cv::getTickFrequency()`, ticks per second. -/
  getTickFrequency : ℚ
  /-- The text `currentDateTime()` (source lines 184 to 197) formats from the
  wall clock. -/
  currentDateTime : String

/-- Modelled from the spec: the data members of a `SequenceCapture` object. The
header `SequenceCapture.h` that declares them is not among the sources; the
members are the ones the member functions read or write, under the names used
there; `frame_num` is a counter that is never negative and `vid_length` an
integer, as in the data model of the specification (`frameIndex`,
`totalFrames`), neither with a machine width. -/
structure State (Cap : Type) where
  capture : Cap
  latest_frame : Mat
  latest_gray_frame : Mat
  frame_num : ℕ
  image_files : List String
  vid_length : ℤ
  is_webcam : Bool
  is_image_seq : Bool
  frame_width : ℤ
  frame_height : ℤ
  fps : Fp
  time_stamp : Fp
  name : String
  start_time : ℤ
  fx : Fp
  fy : Fp
  cx : Fp
  cy : Fp
  no_input_specified : Bool
  /-- Ghost field: the collaborator calls made so far, oldest first. -/
  log : List Call
  deriving DecidableEq

variable {Cap : Type} {α : Type} [DecidableEq α]

/-- The member function `SetCameraIntrinsics` (source lines 372 to 399). -/
def SetCameraIntrinsics (st : State Cap) (fx fy cx cy : Fp) : State Cap :=
  let st :=
    if cx = Fp.fin (-1) then
      { st with
        cx := Fp.fin (F32.div (F32.ofInt st.frame_width) 2)
        cy := Fp.fin (F32.div (F32.ofInt st.frame_height) 2) }
    else
      { st with cx := cx, cy := cy }
  if fx = Fp.fin (-1) then
    let fx0 := F32.mul 500 (F32.div (F32.ofInt st.frame_width) 640)
    let fy0 := F32.mul 500 (F32.div (F32.ofInt st.frame_height) 480)
    let fx1 := F32.div (F32.add fx0 fy0) 2
    { st with fx := Fp.fin fx1, fy := Fp.fin fx1 }
  else
    { st with fx := fx, fy := fy }

/-- The frame rate check shared by the webcam and the video file: NaN and
values that are not positive become 30. -/
def fixFps (fps : Fp) : Fp :=
  if fps.isNaN || fps.leZero then Fp.fin 30 else fps

/-- The member function `OpenWebcam` (source lines 200 to 257). -/
def OpenWebcam (b : Backend Cap) (st : State Cap) (device image_width image_height : ℤ)
    (fx fy cx cy : Fp) : Bool × State Cap :=
  let st := { st with no_input_specified := false, frame_num := 0, time_stamp := Fp.fin 0 }
  if device < 0 then
    (false, st)
  else
    let st := { st with latest_frame := Mat.empty, latest_gray_frame := Mat.empty }
    let cap := b.capOpenDevice st.capture device
    let cap := b.capSet cap CapProp.frameWidth image_width
    let cap := b.capSet cap CapProp.frameHeight image_height
    let st := { st with
      capture := cap
      is_webcam := true
      is_image_seq := false
      vid_length := 0
      frame_width := (b.capGet cap CapProp.frameWidth).toInt
      frame_height := (b.capGet cap CapProp.frameHeight).toInt
      log := st.log ++ [Call.capOpenDevice device, Call.capSet CapProp.frameWidth image_width,
        Call.capSet CapProp.frameHeight image_height, Call.capGet CapProp.frameWidth,
        Call.capGet CapProp.frameHeight, Call.capIsOpened] }
    if !b.capIsOpened cap then
      (false, st)
    else
      let st := { st with
        fps := fixFps (b.capGet cap CapProp.fps)
        log := st.log ++ [Call.capGet CapProp.fps] }
      let st := SetCameraIntrinsics st fx fy cx cy
      (true, { st with
        name := "webcam_" ++ b.currentDateTime
        start_time := b.getTickCount (st.log.count Call.getTickCount)
        log := st.log ++ [Call.currentDateTime, Call.getTickCount] })

/-- The member function `Close` (source lines 259 to 263). -/
def Close (b : Backend Cap) (st : State Cap) : State Cap :=
  if b.capIsOpened st.capture then
    { st with capture := b.capRelease st.capture, log := st.log ++ [Call.capIsOpened, Call.capRelease] }
  else
    { st with log := st.log ++ [Call.capIsOpened] }

/-- The member function `OpenVideoFile` (source lines 272 to 314). -/
def OpenVideoFile (b : Backend Cap) (st : State Cap) (video_file : String)
    (fx fy cx cy : Fp) : Bool × State Cap :=
  let cap := b.capOpenFile st.capture video_file
  let st := { st with
    no_input_specified := false
    frame_num := 0
    time_stamp := Fp.fin 0
    latest_frame := Mat.empty
    latest_gray_frame := Mat.empty
    capture := cap
    log := st.log ++ [Call.capOpenFile video_file, Call.capIsOpened] }
  if !b.capIsOpened cap then
    (false, st)
  else
    let st := { st with
      fps := fixFps (b.capGet cap CapProp.fps)
      is_webcam := false
      is_image_seq := false
      frame_width := (b.capGet cap CapProp.frameWidth).toInt
      frame_height := (b.capGet cap CapProp.frameHeight).toInt
      vid_length := (b.capGet cap CapProp.frameCount).toInt
      log := st.log ++ [Call.capGet CapProp.fps, Call.capGet CapProp.frameWidth,
        Call.capGet CapProp.frameHeight, Call.capGet CapProp.frameCount] }
    let st := SetCameraIntrinsics st fx fy cx cy
    (true, { st with name := video_file })

/-- The characters of a path after its last directory separator. -/
def filename (path : String) : List Char :=
  (path.toList.reverse.takeWhile (fun c => c != '/')).reverse

/-- The member `extension()` of a `boost::filesystem::path` (version 3): for a file
name other than `.` and `..` that holds a dot, the part from its last dot on;
empty otherwise. -/
def extension (path : String) : String :=
  let name := filename path
  if name = ['.'] ∨ name = ['.', '.'] ∨ '.' ∉ name then ""
  else String.mk ('.' :: (name.reverse.takeWhile (fun c => c != '.')).reverse)

/-- The test of source line 338 on one directory entry. -/
def isImagePath (path : String) : Bool :=
  extension path = ".jpg" || extension path = ".jpeg" || extension path = ".png"
    || extension path = ".bmp"

/-- The order `std::sort` uses on the directory entries: two paths compare as
their character sequences do. -/
def pathLe (p q : String) : Prop := p.toList ≤ q.toList

instance (p q : String) : Decidable (pathLe p q) := by
  unfold pathLe; infer_instance

instance : IsTotal String pathLe :=
  ⟨fun p q => by simp only [pathLe, ← String.le_iff_toList_le]; exact le_total p q⟩

instance : IsTrans String pathLe :=
  ⟨fun p q r => by simp only [pathLe, ← String.le_iff_toList_le]; exact le_trans⟩

/-- The member function `OpenImageSequence` (source lines 316 to 370). -/
def OpenImageSequence (b : Backend Cap) (st : State Cap) (directory : String)
    (fx fy cx cy : Fp) : Bool × State Cap :=
  let file_in_directory := List.insertionSort pathLe (b.listDirectory directory)
  let curr_dir_files := file_in_directory.filter isImagePath
  let st := { st with
    no_input_specified := false
    frame_num := 0
    time_stamp := Fp.fin 0
    image_files := curr_dir_files
    log := st.log ++ [Call.listDirectory directory] }
  match curr_dir_files with
  | [] => (false, st)
  | first :: _ =>
    let tmp := b.imread first
    let st := { st with
      frame_height := tmp.rows
      frame_width := tmp.cols
      log := st.log ++ [Call.imread first] }
    let st := SetCameraIntrinsics st fx fy cx cy
    (true, { st with
      fps := Fp.fin 0
      name := directory
      is_webcam := false
      is_image_seq := true
      vid_length := curr_dir_files.length })

/-- The member function `GetNextFrame` (source lines 401 to 446): the frame
returned and the new state. -/
def GetNextFrame (b : Backend Cap) (st : State Cap) : Mat × State Cap :=
  let st :=
    if st.is_webcam || !st.is_image_seq then
      let r := b.capRead st.capture
      let st := { st with
        capture := r.1
        latest_frame := r.2.getD Mat.empty
        log := st.log ++ [Call.capRead] }
      if !st.is_webcam then
        { st with time_stamp := F64.mul (F64.ofInt st.frame_num) (F64.inv st.fps) }
      else
        { st with
          time_stamp := F64.div
            (F64.ofInt (b.getTickCount (st.log.count Call.getTickCount) - st.start_time))
            b.getTickFrequency
          log := st.log ++ [Call.getTickCount] }
    else if st.is_image_seq then
      let st :=
        if st.image_files.isEmpty || decide (st.image_files.length ≤ st.frame_num) then
          { st with latest_frame := Mat.empty }
        else
          let file := st.image_files.getD st.frame_num ""
          { st with latest_frame := b.imread file, log := st.log ++ [Call.imread file] }
      { st with time_stamp := Fp.fin 0 }
    else st
  let st := { st with latest_gray_frame := b.toGray st.latest_frame, frame_num := st.frame_num + 1 }
  (st.latest_frame, st)

/-- The state after `n` successive calls of `GetNextFrame`. -/
def pulls (b : Backend Cap) : ℕ → State Cap → State Cap
  | 0, st => st
  | n + 1, st => (GetNextFrame b (pulls b n st)).2

/-- The member function `GetProgress` (source lines 448 to 458). -/
def GetProgress (st : State Cap) : Fp :=
  if st.is_webcam then Fp.fin (-1)
  else F64.div (F64.ofInt st.frame_num) (F64.ofInt st.vid_length)

/-- The member function `IsOpened` (source lines 460 to 466). -/
def IsOpened (b : Backend Cap) (st : State Cap) : Bool :=
  if st.is_webcam || !st.is_image_seq then b.capIsOpened st.capture
  else decide (0 < st.image_files.length) && decide (st.frame_num < st.image_files.length)

/-- The member function `GetGrayFrame` (source lines 468 to 471). -/
def GetGrayFrame (st : State Cap) : Mat := st.latest_gray_frame

/-- Undefined behaviour met while running `Open`, or a loop model that ran out
of steps. -/
inductive Fault where
  /-- `arguments[index]` was read on a vector of `size` elements with
  `size ≤ index`. -/
  | outOfRange (index size : ℕ)
  /-- The step budget of a loop model was used up before the loop ended. -/
  | outOfFuel
  deriving DecidableEq

instance : DecidableEq (Except Fault α) := fun x y =>
  match x, y with
  | Except.ok a, Except.ok c => if h : a = c then isTrue (by rw [h]) else isFalse (by simpa using h)
  | Except.error e, Except.error f => if h : e = f then isTrue (by rw [h]) else isFalse (by simpa using h)
  | Except.ok _, Except.error _ => isFalse (by simp)
  | Except.error _, Except.ok _ => isFalse (by simp)

/-- The unchecked read `arguments[i]`. -/
def readArg (arguments : List String) (i : ℕ) : Except Fault String :=
  match arguments.get? i with
  | some a => Except.ok a
  | none => Except.error (Fault.outOfRange i arguments.length)

/-- The loop of source lines 80 to 92 from index `i` on, `input_root` being its
current value. The first argument bounds the number of iterations. -/
def rootLoop (b : Backend Cap) (arguments : List String) :
    ℕ → ℕ → String → Except Fault String
  | 0, i, input_root =>
    if i < arguments.length then Except.error Fault.outOfFuel else Except.ok input_root
  | fuel + 1, i, input_root =>
    if i < arguments.length then
      match readArg arguments i with
      | Except.error e => Except.error e
      | Except.ok a =>
        -- if (arguments[i].compare("-root") == 0)
        match (if a = "-root" then
            match readArg arguments (i + 1) with
            | Except.error e => Except.error e
            | Except.ok v => Except.ok (i + 1, v ++ b.separator)
          else Except.ok (i, input_root)) with
        | Except.error e => Except.error e
        | Except.ok (i, input_root) =>
          -- if (arguments[i].compare("-inroot") == 0)
          match readArg arguments i with
          | Except.error e => Except.error e
          | Except.ok a =>
            if a = "-inroot" then
              match readArg arguments (i + 1) with
              | Except.error e => Except.error e
              | Except.ok v => rootLoop b arguments fuel (i + 1 + 1) (v ++ b.separator)
            else rootLoop b arguments fuel (i + 1) input_root
    else Except.ok input_root

/-- The local variables the loop of source lines 100 to 150 writes, with the
`valid` array and the members `fx`, `fy`, `cx`, `cy`. -/
structure Scan where
  input_video_file : String
  input_sequence_directory : String
  device : ℤ
  file_found : Bool
  fx : Fp
  fy : Fp
  cx : Fp
  cy : Fp
  valid : List Bool
  deriving DecidableEq

/-- The loop of source lines 100 to 150 from index `i` on. -/
def scanLoop (b : Backend Cap) (input_root : String) (arguments : List String) :
    ℕ → ℕ → Scan → Except Fault Scan
  | 0, i, s => if i < arguments.length then Except.error Fault.outOfFuel else Except.ok s
  | fuel + 1, i, s =>
    if i < arguments.length then
      match readArg arguments i with
      | Except.error e => Except.error e
      | Except.ok a =>
        if !s.file_found && a = "-f" then
          match readArg arguments (i + 1) with
          | Except.error e => Except.error e
          | Except.ok v =>
            scanLoop b input_root arguments fuel (i + 1 + 1)
              { s with
                input_video_file := input_root ++ v
                valid := (s.valid.set i false).set (i + 1) false
                file_found := true }
        else if !s.file_found && a = "-fdir" then
          match readArg arguments (i + 1) with
          | Except.error e => Except.error e
          | Except.ok v =>
            scanLoop b input_root arguments fuel (i + 1 + 1)
              { s with
                input_sequence_directory := input_root ++ v
                valid := (s.valid.set i false).set (i + 1) false
                file_found := true }
        else if a = "-fx" then
          match readArg arguments (i + 1) with
          | Except.error e => Except.error e
          | Except.ok v =>
            scanLoop b input_root arguments fuel (i + 1 + 1) { s with fx := b.parseFloat v s.fx }
        else if a = "-fy" then
          match readArg arguments (i + 1) with
          | Except.error e => Except.error e
          | Except.ok v =>
            scanLoop b input_root arguments fuel (i + 1 + 1) { s with fy := b.parseFloat v s.fy }
        else if a = "-cx" then
          match readArg arguments (i + 1) with
          | Except.error e => Except.error e
          | Except.ok v =>
            scanLoop b input_root arguments fuel (i + 1 + 1) { s with cx := b.parseFloat v s.cx }
        else if a = "-cy" then
          match readArg arguments (i + 1) with
          | Except.error e => Except.error e
          | Except.ok v =>
            scanLoop b input_root arguments fuel (i + 1 + 1) { s with cy := b.parseFloat v s.cy }
        else if a = "-device" then
          match readArg arguments (i + 1) with
          | Except.error e => Except.error e
          | Except.ok v =>
            scanLoop b input_root arguments fuel (i + 1 + 1)
              { s with
                device := b.parseInt v s.device
                valid := (s.valid.set i false).set (i + 1) false }
        else scanLoop b input_root arguments fuel (i + 1) s
    else Except.ok s

/-- The loop of source lines 152 to 158, `i` counting down from the size of the
vector: the element at index `i - 1` is erased when its `valid` mark is false. -/
def eraseLoop (valid : List Bool) : ℕ → List String → List String
  | 0, arguments => arguments
  | i + 1, arguments =>
    eraseLoop valid i (if valid.getD i true = false then arguments.eraseIdx i else arguments)

/-- The values of the locals when the main loop starts (source lines 66 to 75
and 94 to 98). -/
def Scan.init (n : ℕ) : Scan where
  input_video_file := ""
  input_sequence_directory := ""
  device := -1
  file_found := false
  fx := Fp.fin (-1)
  fy := Fp.fin (-1)
  cx := Fp.fin (-1)
  cy := Fp.fin (-1)
  valid := List.replicate n true

/-- The argument parsing of `Open` (source lines 66 to 150): the root prepass
and then the main loop. -/
def scanArguments (b : Backend Cap) (arguments : List String) : Except Fault Scan :=
  match rootLoop b arguments arguments.length 0 "" with
  | Except.error e => Except.error e
  | Except.ok input_root =>
    scanLoop b input_root arguments arguments.length 0 (Scan.init arguments.length)

/-- The member function `Open` on a token vector (source lines 62 to 181): the
result, the new state and the vector as the call leaves it. -/
def Open (b : Backend Cap) (st : State Cap) (arguments : List String) :
    Except Fault (Bool × State Cap × List String) :=
  match scanArguments b arguments with
  | Except.error e => Except.error e
  | Except.ok s =>
    let arguments := eraseLoop s.valid arguments.length arguments
    let st := { st with
      fx := s.fx, fy := s.fy, cx := s.cx, cy := s.cy
      no_input_specified := !s.file_found }
    if s.device ≠ -1 then
      let r := OpenWebcam b st s.device 640 480 s.fx s.fy s.cx s.cy
      Except.ok (r.1, r.2, arguments)
    else if s.input_video_file ≠ "" then
      let r := OpenVideoFile b st s.input_video_file s.fx s.fy s.cx s.cy
      Except.ok (r.1, r.2, arguments)
    else if s.input_sequence_directory ≠ "" then
      let r := OpenImageSequence b st s.input_sequence_directory s.fx s.fy s.cx s.cy
      Except.ok (r.1, r.2, arguments)
    else
      Except.ok (false, { st with no_input_specified := true }, arguments)

/-! ### Command lines in which each flag is followed by its value -/

/-- The flags `Open` reads a value after. -/
def valueFlags : List String :=
  ["-root", "-inroot", "-f", "-fdir", "-fx", "-fy", "-cx", "-cy", "-device"]

/-- One unit of a command line: a token that stands alone, or a flag together
with the value that follows it. -/
inductive Item where
  | plain (token : String)
  | flag (name value : String)
  deriving DecidableEq

namespace Item

/-- The tokens an item is written with. -/
def tokens : Item → List String
  | plain t => [t]
  | flag f v => [f, v]

/-- A token standing alone is not one of the flags that take a value; the value
of a flag is a token that is not empty and not itself such a flag. -/
def wellFormed : Item → Prop
  | plain t => t ∉ valueFlags
  | flag f v => f ∈ valueFlags ∧ v ∉ valueFlags ∧ v ≠ ""

instance (it : Item) : Decidable it.wellFormed := by
  cases it <;> unfold wellFormed <;> infer_instance

/-- Each flag is followed by its value: a token standing alone is not one of the
flags that take a value, and the token after such a flag is its value, whatever
its text (the empty text included), as long as it is not itself such a flag. -/
def paired : Item → Prop
  | plain t => t ∉ valueFlags
  | flag f v => f ∈ valueFlags ∧ v ∉ valueFlags

instance (it : Item) : Decidable it.paired := by
  cases it <;> unfold paired <;> infer_instance

/-- The item is a `-f` or `-fdir` flag. -/
def isSource : Item → Bool
  | flag f _ => f = "-f" || f = "-fdir"
  | plain _ => false

/-- The item is a `-device` flag. -/
def isDevice : Item → Bool
  | flag f _ => f = "-device"
  | plain _ => false

/-- The item is a `-root` or `-inroot` flag. -/
def isRoot : Item → Bool
  | flag f _ => f = "-root" || f = "-inroot"
  | plain _ => false

/-- The item is the flag called `name`. -/
def isFlag (name : String) : Item → Bool
  | flag f _ => f = name
  | plain _ => false

/-- The value of a flag (for a token standing alone, the token). -/
def value : Item → String
  | flag _ v => v
  | plain t => t

end Item

/-- The token vector of a list of items. -/
def tokensOf : List Item → List String
  | [] => []
  | it :: rest => it.tokens ++ tokensOf rest

/-- The root prefix when the last `-root` or `-inroot` flag decides: its value
followed by the separator, and nothing when there is no such flag. -/
def lastRoot (separator : String) (items : List Item) : String :=
  match (items.filter Item.isRoot).getLast? with
  | some it => it.value ++ separator
  | none => ""

/-- The root prefix when the first `-root` or `-inroot` flag decides. -/
def firstRoot (separator : String) (items : List Item) : String :=
  match (items.filter Item.isRoot).head? with
  | some it => it.value ++ separator
  | none => ""

/-- The first `-f` or `-fdir` flag of a command line. -/
def firstSource (items : List Item) : Option Item :=
  items.find? Item.isSource

/-- The device index the `-device` flags leave: each one is read, in order, into
a variable that starts at -1. -/
def parsedDevice (b : Backend Cap) (items : List Item) : ℤ :=
  items.foldl (fun d it => if it.isDevice then b.parseInt it.value d else d) (-1)

/-- The override the flags called `name` leave: each one is read, in order, into
a variable that starts at -1. -/
def parsedFloat (b : Backend Cap) (name : String) (items : List Item) : Fp :=
  items.foldl (fun x it => if it.isFlag name then b.parseFloat it.value x else x) (Fp.fin (-1))

/-- The items left when the first `-f` or `-fdir` flag and every `-device` flag
are taken out. -/
def remainingItems (items : List Item) : List Item :=
  (items.eraseP Item.isSource).filter (fun it => !it.isDevice)

/-- The object at the point where `Open` picks a source (source line 163): the
members `fx`, `fy`, `cx`, `cy` hold what the flags left, and `no_input_specified`
tells whether no `-f` or `-fdir` flag was met. -/
def atDispatch (b : Backend Cap) (st : State Cap) (items : List Item) : State Cap :=
  { st with
    fx := parsedFloat b "-fx" items
    fy := parsedFloat b "-fy" items
    cx := parsedFloat b "-cx" items
    cy := parsedFloat b "-cy" items
    no_input_specified := (firstSource items).isNone }

/-- The source selection of `Open` as its specification words it, for a command
line given as items: a parsed device index other than -1 opens the webcam;
otherwise the first `-f` or `-fdir` flag decides between a video file and an
image directory, at the root prefix followed by its value; otherwise nothing
is opened, the call fails and `no_input_specified` is set. The third component
is the token vector the call leaves. -/
def dispatchRule (b : Backend Cap) (st : State Cap) (items : List Item) :
    Bool × State Cap × List String :=
  let st1 := atDispatch b st items
  let rest := tokensOf (remainingItems items)
  if parsedDevice b items ≠ -1 then
    let r := OpenWebcam b st1 (parsedDevice b items) 640 480 st1.fx st1.fy st1.cx st1.cy
    (r.1, r.2, rest)
  else
    match firstSource items with
    | some it =>
      if it.isFlag "-f" then
        let r := OpenVideoFile b st1 (lastRoot b.separator items ++ it.value)
          st1.fx st1.fy st1.cx st1.cy
        (r.1, r.2, rest)
      else
        let r := OpenImageSequence b st1 (lastRoot b.separator items ++ it.value)
          st1.fx st1.fy st1.cx st1.cy
        (r.1, r.2, rest)
    | none => (false, { st1 with no_input_specified := true }, rest)

/-- The source selection of `Open` as the code makes it: as `dispatchRule`, but
the first `-f` or `-fdir` flag decides only when its path, the root prefix
followed by its value, is not empty; with an empty path nothing is opened, the
call fails and `no_input_specified` is set. -/
def dispatchGuarded (b : Backend Cap) (st : State Cap) (items : List Item) :
    Bool × State Cap × List String :=
  let st1 := atDispatch b st items
  let rest := tokensOf (remainingItems items)
  if parsedDevice b items ≠ -1 then
    let r := OpenWebcam b st1 (parsedDevice b items) 640 480 st1.fx st1.fy st1.cx st1.cy
    (r.1, r.2, rest)
  else
    match firstSource items with
    | some it =>
      if lastRoot b.separator items ++ it.value = "" then
        (false, { st1 with no_input_specified := true }, rest)
      else if it.isFlag "-f" then
        let r := OpenVideoFile b st1 (lastRoot b.separator items ++ it.value)
          st1.fx st1.fy st1.cx st1.cy
        (r.1, r.2, rest)
      else
        let r := OpenImageSequence b st1 (lastRoot b.separator items ++ it.value)
          st1.fx st1.fy st1.cx st1.cy
        (r.1, r.2, rest)
    | none => (false, { st1 with no_input_specified := true }, rest)

/-- What a caller observes of a call of `Open`: the result, the token vector it
leaves and the collaborator calls on record; `none` when the call ran into
undefined behaviour. -/
def outcome (r : Except Fault (Bool × State Cap × List String)) :
    Option (Bool × List String × List Call) :=
  match r with
  | Except.ok (ok, st, rest) => some (ok, rest, st.log)
  | Except.error _ => none

/-- The effect of one item on the root prefix in the loop of lines 80 to 92. -/
def rootStep (separator : String) (input_root : String) (it : Item) : String :=
  if it.isRoot then it.value ++ separator else input_root

/-- The effect of one item on the locals of the loop of lines 100 to 150, the
`valid` marks of its tokens being appended. -/
def itemStep (b : Backend Cap) (input_root : String) (s : Scan) (it : Item) : Scan :=
  match it with
  | Item.plain _ => { s with valid := s.valid ++ [true] }
  | Item.flag f v =>
    if !s.file_found && f = "-f" then
      { s with
        input_video_file := input_root ++ v
        valid := s.valid ++ [false, false]
        file_found := true }
    else if !s.file_found && f = "-fdir" then
      { s with
        input_sequence_directory := input_root ++ v
        valid := s.valid ++ [false, false]
        file_found := true }
    else if f = "-fx" then { s with fx := b.parseFloat v s.fx, valid := s.valid ++ [true, true] }
    else if f = "-fy" then { s with fy := b.parseFloat v s.fy, valid := s.valid ++ [true, true] }
    else if f = "-cx" then { s with cx := b.parseFloat v s.cx, valid := s.valid ++ [true, true] }
    else if f = "-cy" then { s with cy := b.parseFloat v s.cy, valid := s.valid ++ [true, true] }
    else if f = "-device" then
      { s with device := b.parseInt v s.device, valid := s.valid ++ [false, false] }
    else { s with valid := s.valid ++ [true, true] }

/-- The elements of a vector whose mark is true, in order. -/
def keepValid : List String → List Bool → List String
  | a :: as, v :: vs => if v then a :: keepValid as vs else keepValid as vs
  | _, _ => []

/-- The items `Open` leaves in the vector, `found` telling whether a `-f` or
`-fdir` flag was consumed before. -/
def dropSelection : Bool → List Item → List Item
  | _, [] => []
  | found, it :: rest =>
    if !found && it.isSource then dropSelection true rest
    else if it.isDevice then dropSelection found rest
    else it :: dropSelection found rest

/-- The number a list of decimal digits writes. -/
def digitsValue (ds : List Char) : ℕ :=
  ds.foldl (fun n c => 10 * n + (c.toNat - 48)) 0

/-- A sample reader of decimal integers, used to run the model on concrete
tokens: an optional minus sign followed by digits. Anything else stores 0, as a
failed extraction does since C++11. -/
def sampleParseInt (token : String) (_old : ℤ) : ℤ :=
  match token.toList with
  | '-' :: ds => if ds ≠ [] ∧ ds.all Char.isDigit then -(digitsValue ds : ℤ) else 0
  | ds => if ds ≠ [] ∧ ds.all Char.isDigit then (digitsValue ds : ℤ) else 0

/-- A sample backend over a handle that is just an open flag: every device and
every file opens, with 640 by 480 frames at 30 frames per second and 10 frames
in a file. -/
def sampleBackend : Backend Bool where
  separator := "/"
  parseInt := sampleParseInt
  parseFloat := fun token _ => Fp.fin (sampleParseInt token 0)
  capOpenDevice := fun _ _ => true
  capOpenFile := fun _ _ => true
  capSet := fun c _ _ => c
  capGet := fun _ p =>
    match p with
    | CapProp.frameWidth => Fp.fin 640
    | CapProp.frameHeight => Fp.fin 480
    | CapProp.fps => Fp.fin 30
    | CapProp.frameCount => Fp.fin 10
  capIsOpened := fun c => c
  capRead := fun c => (c, some ⟨640, 480, [0]⟩)
  capRelease := fun _ => false
  imread := fun _ => ⟨640, 480, [0]⟩
  listDirectory := fun d =>
    [d ++ "/b.png", d ++ "/a.jpg", d ++ "/c.bmp", d ++ "/note.txt"]
  toGray := fun m => m
  getTickCount := fun n => 1000 * n
  getTickFrequency := 1000
  currentDateTime := "2020-01-01-00-00"

/-- A freshly constructed object over the sample backend: nothing opened. -/
def sampleState : State Bool where
  capture := false
  latest_frame := Mat.empty
  latest_gray_frame := Mat.empty
  frame_num := 0
  image_files := []
  vid_length := 0
  is_webcam := false
  is_image_seq := false
  frame_width := 0
  frame_height := 0
  fps := Fp.fin 0
  time_stamp := Fp.fin 0
  name := ""
  start_time := 0
  fx := Fp.fin 0
  fy := Fp.fin 0
  cx := Fp.fin 0
  cy := Fp.fin 0
  no_input_specified := false
  log := []

/-- The sample object with a frame size filled in. -/
def sizedState (w h : ℤ) : State Bool :=
  { sampleState with frame_width := w, frame_height := h }

/-- The value -1 that stands for an intrinsic not given. -/
def unset : Fp := Fp.fin (-1)

end SequenceCapture

namespace Fp

theorem rne_intCast (n : ℤ) : rne (n : ℚ) = n := by
  simp [rne]

theorem floor_le_rne (x : ℚ) : ⌊x⌋ ≤ rne x := by
  unfold rne; split_ifs <;> omega

theorem rne_le_floor_add_one (x : ℚ) : rne x ≤ ⌊x⌋ + 1 := by
  unfold rne; split_ifs <;> omega

theorem rne_mono {x y : ℚ} (h : x ≤ y) : rne x ≤ rne y := by
  rcases lt_or_eq_of_le (Int.floor_mono h) with hlt | heq
  · have := rne_le_floor_add_one x
    have := floor_le_rne y
    omega
  · unfold rne
    rw [heq]
    split_ifs <;> first | omega | (exfalso; linarith)

theorem rnd_zero (p : ℕ) : rnd p 0 = 0 := by simp [rnd]

theorem rnd_of_log {p : ℕ} {q : ℚ} {e : ℤ} (hq : q ≠ 0) (he : Int.log 2 |q| = e) :
    rnd p q = rne (q / 2 ^ (e - (p - 1))) * 2 ^ (e - (p - 1)) := by
  simp [rnd, hq, he]

theorem log_eq_of_bounds {q : ℚ} {e : ℤ} (h1 : (2 : ℚ) ^ e ≤ q) (h2 : q < 2 ^ (e + 1)) :
    Int.log 2 |q| = e := by
  have hpos : 0 < q := lt_of_lt_of_le (by positivity) h1
  rw [abs_of_pos hpos]
  apply le_antisymm
  · have := (Int.lt_zpow_iff_log_lt (b := 2) (by norm_num) hpos (x := e + 1)).1 (by exact_mod_cast h2)
    omega
  · exact (Int.zpow_le_iff_le_log (b := 2) (by norm_num) hpos).1 (by exact_mod_cast h1)

theorem rnd_nonneg (p : ℕ) {q : ℚ} (h : 0 ≤ q) : 0 ≤ rnd p q := by
  unfold rnd
  split_ifs with h0
  · exact le_refl _
  · apply mul_nonneg _ (by positivity)
    have : (0 : ℤ) ≤ rne (q / 2 ^ (Int.log 2 |q| - ((p : ℤ) - 1))) := by
      have h1 := rne_mono (x := 0) (y := q / 2 ^ (Int.log 2 |q| - ((p : ℤ) - 1))) (by positivity)
      have h2 := rne_intCast 0
      simp only [Int.cast_zero] at h2
      omega
    exact_mod_cast this

theorem rnd_exact {p : ℕ} {m j : ℤ} (hm : |m| < 2 ^ p) : rnd p (m * 2 ^ j) = m * 2 ^ j := by
  by_cases h0 : m = 0
  · simp [h0, rnd]
  have hq : (m : ℚ) * 2 ^ j ≠ 0 := mul_ne_zero (by exact_mod_cast h0) (by positivity)
  have hpos : 0 < |(m : ℚ) * 2 ^ j| := abs_pos.2 hq
  have hlt : |(m : ℚ) * 2 ^ j| < ((2 : ℕ) : ℚ) ^ ((p : ℤ) + j) := by
    rw [abs_mul, abs_of_pos (a := (2 : ℚ) ^ j) (by positivity), zpow_add₀ (by norm_num)]
    apply mul_lt_mul_of_pos_right _ (by positivity)
    have : ((|m| : ℤ) : ℚ) < ((2 ^ p : ℤ) : ℚ) := by exact_mod_cast hm
    simpa using this
  have he := (Int.lt_zpow_iff_log_lt (b := 2) (by norm_num) hpos).1 hlt
  obtain ⟨k, hk⟩ : ∃ k : ℕ, (k : ℤ) = j - (Int.log 2 |(m : ℚ) * 2 ^ j| - ((p : ℤ) - 1)) :=
    ⟨(j - (Int.log 2 |(m : ℚ) * 2 ^ j| - ((p : ℤ) - 1))).toNat, Int.toNat_of_nonneg (by omega)⟩
  have hj : j = (k : ℤ) + (Int.log 2 |(m : ℚ) * 2 ^ j| - ((p : ℤ) - 1)) := by omega
  unfold rnd
  rw [if_neg hq]
  generalize Int.log 2 |(m : ℚ) * 2 ^ j| - ((p : ℤ) - 1) = u at hj hk ⊢
  subst hj
  have hdiv : (m : ℚ) * 2 ^ ((k : ℤ) + u) / 2 ^ u = ((m * 2 ^ k : ℤ) : ℚ) := by
    rw [zpow_add₀ (by norm_num), zpow_natCast]
    push_cast
    field_simp
    ring
  rw [hdiv, rne_intCast, zpow_add₀ (by norm_num), zpow_natCast]
  push_cast
  ring

theorem rnd_intCast {p : ℕ} {m : ℤ} (hm : |m| < 2 ^ p) : rnd p m = m := by
  simpa using rnd_exact (j := 0) hm

theorem rnd_half {p : ℕ} {m : ℤ} (hm : |m| < 2 ^ p) : rnd p ((m : ℚ) / 2) = m / 2 := by
  have := rnd_exact (j := -1) hm
  simpa [div_eq_mul_inv] using this

theorem rnd_bounds {p : ℕ} (hp : 1 ≤ p) {q : ℚ} (hq : 0 < q) :
    (2 : ℚ) ^ Int.log 2 |q| ≤ rnd p q ∧ rnd p q ≤ 2 ^ (Int.log 2 |q| + 1) := by
  have h1 : (2 : ℚ) ^ Int.log 2 |q| ≤ q := by
    have := Int.zpow_log_le_self (b := 2) (r := |q|) (by norm_num) (abs_pos.2 hq.ne')
    rw [abs_of_pos hq] at this ⊢
    exact_mod_cast this
  have h2 : q < (2 : ℚ) ^ (Int.log 2 |q| + 1) := by
    have := Int.lt_zpow_succ_log_self (b := 2) (by norm_num) |q|
    rw [abs_of_pos hq] at this ⊢
    exact_mod_cast this
  unfold rnd
  rw [if_neg hq.ne']
  generalize Int.log 2 |q| = e at h1 h2 ⊢
  obtain ⟨k, rfl⟩ : ∃ k : ℕ, p = k + 1 := ⟨p - 1, by omega⟩
  have hu : (0 : ℚ) < 2 ^ (e - ((k + 1 : ℕ) - 1 : ℤ)) := by positivity
  have hsplit : (2 : ℚ) ^ e = 2 ^ k * 2 ^ (e - ((k + 1 : ℕ) - 1 : ℤ)) := by
    rw [← zpow_natCast, ← zpow_add₀ (by norm_num)]
    congr 1
    push_cast
    ring
  have hsplit2 : (2 : ℚ) ^ (e + 1) = 2 ^ (k + 1) * 2 ^ (e - ((k + 1 : ℕ) - 1 : ℤ)) := by
    rw [← zpow_natCast, ← zpow_add₀ (by norm_num)]
    congr 1
    push_cast
    ring
  constructor
  · have hle : ((2 ^ k : ℤ) : ℚ) ≤ q / 2 ^ (e - ((k + 1 : ℕ) - 1 : ℤ)) := by
      rw [le_div_iff₀ hu, Int.cast_pow, Int.cast_ofNat, ← hsplit]
      exact h1
    have := rne_mono hle
    rw [rne_intCast] at this
    rw [hsplit]
    apply mul_le_mul_of_nonneg_right _ hu.le
    exact_mod_cast this
  · have hle : q / 2 ^ (e - ((k + 1 : ℕ) - 1 : ℤ)) ≤ ((2 ^ (k + 1) : ℤ) : ℚ) := by
      rw [div_le_iff₀ hu, Int.cast_pow, Int.cast_ofNat, ← hsplit2]
      exact h2.le
    have := rne_mono hle
    rw [rne_intCast] at this
    rw [hsplit2]
    apply mul_le_mul_of_nonneg_right _ hu.le
    exact_mod_cast this

theorem rnd_mono_pos {p : ℕ} (hp : 1 ≤ p) {x y : ℚ} (hx : 0 < x) (hxy : x ≤ y) :
    rnd p x ≤ rnd p y := by
  have hy : 0 < y := lt_of_lt_of_le hx hxy
  have hlog : Int.log 2 |x| ≤ Int.log 2 |y| := by
    rw [abs_of_pos hx, abs_of_pos hy]
    exact Int.log_mono_right hx hxy
  rcases lt_or_eq_of_le hlog with hlt | heq
  · have h1 := (rnd_bounds hp hx).2
    have h2 := (rnd_bounds hp hy).1
    have h3 : (2 : ℚ) ^ (Int.log 2 |x| + 1) ≤ 2 ^ Int.log 2 |y| :=
      zpow_le_zpow_right₀ (by norm_num) (by omega)
    linarith
  · unfold rnd
    rw [if_neg hx.ne', if_neg hy.ne', heq]
    apply mul_le_mul_of_nonneg_right _ (by positivity)
    have : rne (x / 2 ^ (Int.log 2 |y| - ((p : ℤ) - 1))) ≤ rne (y / 2 ^ (Int.log 2 |y| - ((p : ℤ) - 1))) :=
      rne_mono (div_le_div_of_nonneg_right hxy (by positivity))
    exact_mod_cast this

theorem rnd_mono_nonneg {p : ℕ} (hp : 1 ≤ p) {x y : ℚ} (hx : 0 ≤ x) (hxy : x ≤ y) :
    rnd p x ≤ rnd p y := by
  rcases eq_or_lt_of_le hx with h0 | hpos
  · rw [← h0, rnd_zero]
    exact rnd_nonneg p (le_trans hx hxy)
  · exact rnd_mono_pos hp hpos hxy

/-! ### The error of one rounding -/

theorem rne_eq_of_near {x : ℚ} {n : ℤ} (h : |x - n| < 1 / 2) : rne x = n := by
  rw [abs_lt] at h
  obtain ⟨h1, h2⟩ := h
  by_cases hx : (n : ℚ) ≤ x
  · have hfl : ⌊x⌋ = n := by
      rw [Int.floor_eq_iff]; constructor <;> linarith
    unfold rne
    rw [hfl, if_pos (by linarith)]
  · have hfl : ⌊x⌋ = n - 1 := by
      rw [Int.floor_eq_iff]; push_cast; constructor <;> linarith
    unfold rne
    rw [hfl]
    push_cast
    rw [if_neg (by linarith), if_pos (by linarith)]
    ring

theorem rne_eq_of_between {x : ℚ} {n : ℤ} (h1 : (n : ℚ) - 1 / 2 < x) (h2 : x < n + 1 / 2) :
    rne x = n :=
  rne_eq_of_near (abs_lt.2 ⟨by linarith, by linarith⟩)

theorem rne_eq_of_tie {x : ℚ} {n : ℤ} (h : x = n + 1 / 2) (he : n % 2 = 0) : rne x = n := by
  have hfl : ⌊x⌋ = n := by
    rw [Int.floor_eq_iff]; constructor <;> linarith
  unfold rne
  rw [hfl, if_neg (by linarith), if_neg (by linarith), if_pos he]

theorem rne_err (x : ℚ) : |(rne x : ℚ) - x| ≤ 1 / 2 := by
  have h1 := Int.floor_le x
  have h2 := Int.lt_floor_add_one x
  unfold rne
  split_ifs with a b c
  · rw [abs_le]; constructor <;> linarith
  · push_cast; rw [abs_le]; constructor <;> linarith
  · rw [abs_le]; constructor <;> linarith
  · push_cast; rw [abs_le]; constructor <;> linarith

theorem rnd_eq_of_rne {p : ℕ} {e n : ℤ} {q : ℚ} (h1 : (2 : ℚ) ^ e ≤ q) (h2 : q < 2 ^ (e + 1))
    (hr : rne (q / 2 ^ (e - (p - 1))) = n) : rnd p q = n * 2 ^ (e - (p - 1)) := by
  have hpos : 0 < q := lt_of_lt_of_le (by positivity) h1
  rw [rnd_of_log hpos.ne' (log_eq_of_bounds h1 h2), hr]

/-- One rounding to `p` bits moves a number by at most the fraction `2 ^ (-p)` of
its size. -/
theorem rnd_rel (p : ℕ) (q : ℚ) : |rnd p q - q| ≤ |q| * 2 ^ (-(p : ℤ)) := by
  by_cases h0 : q = 0
  · simp [h0, rnd]
  have hpos : 0 < |q| := abs_pos.2 h0
  have hlog : (2 : ℚ) ^ Int.log 2 |q| ≤ |q| := by
    have := Int.zpow_log_le_self (b := 2) (r := |q|) (by norm_num) hpos
    exact_mod_cast this
  unfold rnd
  rw [if_neg h0]
  generalize Int.log 2 |q| = e at hlog
  have hsplit : (2 : ℚ) ^ (e - ((p : ℤ) - 1)) = 2 * (2 ^ e * 2 ^ (-(p : ℤ))) := by
    rw [← zpow_add₀ (by norm_num), ← zpow_one_add₀ (by norm_num)]
    congr 1
    ring
  have hu : (0 : ℚ) < 2 ^ (e - ((p : ℤ) - 1)) := by positivity
  generalize (2 : ℚ) ^ (e - ((p : ℤ) - 1)) = u at hsplit hu
  have herr := rne_err (q / u)
  have hdiff : (rne (q / u) : ℚ) * u - q = ((rne (q / u) : ℚ) - q / u) * u := by
    field_simp
  rw [hdiff, abs_mul, abs_of_pos hu]
  have hp : (0 : ℚ) < 2 ^ (-(p : ℤ)) := by positivity
  calc |(rne (q / u) : ℚ) - q / u| * u
      ≤ 1 / 2 * u := mul_le_mul_of_nonneg_right herr hu.le
    _ = 2 ^ e * 2 ^ (-(p : ℤ)) := by rw [hsplit]; ring
    _ ≤ |q| * 2 ^ (-(p : ℤ)) := mul_le_mul_of_nonneg_right hlog hp.le

/-- Rounding keeps a number between two multiples of a bound, up to the factors
`1 - 2 ^ (-p)` and `1 + 2 ^ (-p)`. -/
theorem rnd_scale (p : ℕ) (x X lo hi : ℚ) (hX : 0 ≤ X) (hlo : 0 ≤ lo) (h1 : lo * X ≤ x)
    (h2 : x ≤ hi * X) :
    (1 - 2 ^ (-(p : ℤ))) * lo * X ≤ rnd p x ∧ rnd p x ≤ (1 + 2 ^ (-(p : ℤ))) * hi * X := by
  have hx : 0 ≤ x := le_trans (mul_nonneg hlo hX) h1
  have hrel := rnd_rel p x
  rw [abs_of_nonneg hx, abs_le] at hrel
  have hd : (0 : ℚ) < 2 ^ (-(p : ℤ)) := by positivity
  have hd1 : (2 : ℚ) ^ (-(p : ℤ)) ≤ 1 := by
    apply zpow_le_one_of_nonpos₀ (by norm_num)
    omega
  constructor
  · have : (1 - 2 ^ (-(p : ℤ))) * (lo * X) ≤ (1 - 2 ^ (-(p : ℤ))) * x :=
      mul_le_mul_of_nonneg_left h1 (by linarith)
    nlinarith [hrel.1]
  · have : (1 + 2 ^ (-(p : ℤ))) * x ≤ (1 + 2 ^ (-(p : ℤ))) * (hi * X) :=
      mul_le_mul_of_nonneg_left h2 (by linarith)
    nlinarith [hrel.2]

end Fp

namespace SequenceCapture

variable {Cap : Type}

theorem F32_ofInt_exact {n : ℤ} (h : |n| ≤ 2 ^ 24) : F32.ofInt n = n := by
  unfold F32.ofInt
  rcases lt_or_eq_of_le h with hlt | heq
  · exact Fp.rnd_intCast hlt
  · rcases abs_eq (by positivity : (0 : ℤ) ≤ 2 ^ 24) |>.1 heq with h1 | h1
    · have := Fp.rnd_exact (p := 24) (m := 1) (j := 24) (by norm_num)
      rw [h1]; push_cast; norm_num at this ⊢; exact this
    · have := Fp.rnd_exact (p := 24) (m := -1) (j := 24) (by norm_num)
      rw [h1]; push_cast; norm_num at this ⊢; exact this

theorem F32_half_exact {n : ℤ} (h : |n| ≤ 2 ^ 24) : F32.div (F32.ofInt n) 2 = (n : ℚ) / 2 := by
  rw [F32_ofInt_exact h]
  unfold F32.div
  rcases lt_or_eq_of_le h with hlt | heq
  · exact Fp.rnd_half hlt
  · rcases abs_eq (by positivity : (0 : ℤ) ≤ 2 ^ 24) |>.1 heq with h1 | h1
    · have := Fp.rnd_exact (p := 24) (m := 1) (j := 23) (by norm_num)
      rw [h1]; push_cast; norm_num at this ⊢; exact this
    · have := Fp.rnd_exact (p := 24) (m := -1) (j := 23) (by norm_num)
      rw [h1]; push_cast; norm_num at this ⊢; exact this

/-- The focal length of the guess, computed in single precision, is within the
fraction `2 ^ (-21)` of the exact value of the formula. -/
theorem default_focal_error {w h : ℤ} (hw : 0 ≤ w) (hh : 0 ≤ h) :
    |F32.div (F32.add (F32.mul 500 (F32.div (F32.ofInt w) 640))
        (F32.mul 500 (F32.div (F32.ofInt h) 480))) 2
      - (500 * ((w : ℚ) / 640) + 500 * ((h : ℚ) / 480)) / 2|
      ≤ (500 * ((w : ℚ) / 640) + 500 * ((h : ℚ) / 480)) / 2 / 2 ^ 21 := by
  have hwq : (0 : ℚ) ≤ w := by exact_mod_cast hw
  have hhq : (0 : ℚ) ≤ h := by exact_mod_cast hh
  have hd : (2 : ℚ) ^ (-((24 : ℕ) : ℤ)) = 1 / 16777216 := by norm_num
  unfold F32.div F32.add F32.mul F32.ofInt
  -- the width term
  have a1 := Fp.rnd_scale 24 ((w : ℚ)) ((w : ℚ)) (1) (1) hwq (by norm_num)
    (by linarith) (by linarith)
  rw [hd] at a1
  have a2 := Fp.rnd_scale 24 (Fp.rnd 24 w / 640) ((w : ℚ) / 640)
    ((1 - 1 / 16777216) * 1) ((1 + 1 / 16777216) * 1) (by positivity) (by norm_num)
    (by linarith [a1.1]) (by linarith [a1.2])
  rw [hd] at a2
  have a3 := Fp.rnd_scale 24 (500 * Fp.rnd 24 (Fp.rnd 24 w / 640))
    (500 * ((w : ℚ) / 640))
    ((1 - 1 / 16777216) * ((1 - 1 / 16777216) * 1))
    ((1 + 1 / 16777216) * ((1 + 1 / 16777216) * 1)) (by positivity) (by norm_num)
    (by linarith [a2.1]) (by linarith [a2.2])
  rw [hd] at a3
  -- the height term
  have b1 := Fp.rnd_scale 24 ((h : ℚ)) ((h : ℚ)) (1) (1) hhq (by norm_num)
    (by linarith) (by linarith)
  rw [hd] at b1
  have b2 := Fp.rnd_scale 24 (Fp.rnd 24 h / 480) ((h : ℚ) / 480)
    ((1 - 1 / 16777216) * 1) ((1 + 1 / 16777216) * 1) (by positivity) (by norm_num)
    (by linarith [b1.1]) (by linarith [b1.2])
  rw [hd] at b2
  have b3 := Fp.rnd_scale 24 (500 * Fp.rnd 24 (Fp.rnd 24 h / 480))
    (500 * ((h : ℚ) / 480))
    ((1 - 1 / 16777216) * ((1 - 1 / 16777216) * 1))
    ((1 + 1 / 16777216) * ((1 + 1 / 16777216) * 1)) (by positivity) (by norm_num)
    (by linarith [b2.1]) (by linarith [b2.2])
  rw [hd] at b3
  -- their sum and its half
  have s4 := Fp.rnd_scale 24
    (Fp.rnd 24 (500 * Fp.rnd 24 (Fp.rnd 24 w / 640))
      + Fp.rnd 24 (500 * Fp.rnd 24 (Fp.rnd 24 h / 480)))
    (500 * ((w : ℚ) / 640) + 500 * ((h : ℚ) / 480))
    ((1 - 1 / 16777216) * ((1 - 1 / 16777216) * ((1 - 1 / 16777216) * 1)))
    ((1 + 1 / 16777216) * ((1 + 1 / 16777216) * ((1 + 1 / 16777216) * 1)))
    (by positivity) (by norm_num) (by linarith [a3.1, b3.1]) (by linarith [a3.2, b3.2])
  rw [hd] at s4
  have f5 := Fp.rnd_scale 24
    (Fp.rnd 24 (Fp.rnd 24 (500 * Fp.rnd 24 (Fp.rnd 24 w / 640))
      + Fp.rnd 24 (500 * Fp.rnd 24 (Fp.rnd 24 h / 480))) / 2)
    ((500 * ((w : ℚ) / 640) + 500 * ((h : ℚ) / 480)) / 2)
    ((1 - 1 / 16777216) * ((1 - 1 / 16777216) * ((1 - 1 / 16777216)
      * ((1 - 1 / 16777216) * 1))))
    ((1 + 1 / 16777216) * ((1 + 1 / 16777216) * ((1 + 1 / 16777216)
      * ((1 + 1 / 16777216) * 1))))
    (by positivity) (by norm_num) (by linarith [s4.1]) (by linarith [s4.2])
  rw [hd] at f5
  have hE : (0 : ℚ) ≤ (500 * ((w : ℚ) / 640) + 500 * ((h : ℚ) / 480)) / 2 := by positivity
  generalize (500 * ((w : ℚ) / 640) + 500 * ((h : ℚ) / 480)) / 2 = E at f5 hE ⊢
  generalize Fp.rnd 24 (Fp.rnd 24 (Fp.rnd 24 (500 * Fp.rnd 24 (Fp.rnd 24 w / 640))
      + Fp.rnd 24 (500 * Fp.rnd 24 (Fp.rnd 24 h / 480))) / 2) = f at f5 ⊢
  obtain ⟨f1, f2⟩ := f5
  norm_num at f1 f2
  rw [abs_le]
  constructor <;> nlinarith

/-- What `SetCameraIntrinsics` stores, branch by branch. -/
theorem SetCameraIntrinsics_eq (st : State Cap) (fx fy cx cy : Fp) :
    (SetCameraIntrinsics st fx fy cx cy).cx
        = (if cx = Fp.fin (-1) then Fp.fin (F32.div (F32.ofInt st.frame_width) 2) else cx)
      ∧ (SetCameraIntrinsics st fx fy cx cy).cy
        = (if cx = Fp.fin (-1) then Fp.fin (F32.div (F32.ofInt st.frame_height) 2) else cy)
      ∧ (SetCameraIntrinsics st fx fy cx cy).fx
        = (if fx = Fp.fin (-1) then
            Fp.fin (F32.div (F32.add (F32.mul 500 (F32.div (F32.ofInt st.frame_width) 640))
              (F32.mul 500 (F32.div (F32.ofInt st.frame_height) 480))) 2)
          else fx)
      ∧ (SetCameraIntrinsics st fx fy cx cy).fy
        = (if fx = Fp.fin (-1) then
            Fp.fin (F32.div (F32.add (F32.mul 500 (F32.div (F32.ofInt st.frame_width) 640))
              (F32.mul 500 (F32.div (F32.ofInt st.frame_height) 480))) 2)
          else fy) := by
  unfold SetCameraIntrinsics
  by_cases hc : cx = Fp.fin (-1) <;> by_cases hf : fx = Fp.fin (-1) <;> simp [hc, hf]

/-- C4, amended: `SetCameraIntrinsics` stores the supplied pair `(cx, cy)` as it
is when the requested `cx` is not the sentinel -1, and the supplied pair
`(fx, fy)` as it is when the requested `fx` is not -1. When the requested `cx`
is -1 the stored centre is the single precision half of the width and of the
height converted to single precision, which is exactly `w / 2` and `h / 2` for
sizes up to 2 ^ 24 in absolute value. When the requested `fx` is -1 the stored
`fx` and `fy` are equal: both are `(500 * (w / 640) + 500 * (h / 480)) / 2`
with the conversion of `w` and `h` and each of the six operations rounded to
single precision, a value that for sizes that are not negative differs from the
exact value of that formula by at most the fraction 2 ^ -21 of it. -/
theorem SetCameraIntrinsics_stores (st : State Cap) (fx fy cx cy : Fp) :
    (cx ≠ Fp.fin (-1) →
        (SetCameraIntrinsics st fx fy cx cy).cx = cx
          ∧ (SetCameraIntrinsics st fx fy cx cy).cy = cy)
      ∧ (fx ≠ Fp.fin (-1) →
        (SetCameraIntrinsics st fx fy cx cy).fx = fx
          ∧ (SetCameraIntrinsics st fx fy cx cy).fy = fy)
      ∧ (cx = Fp.fin (-1) →
        (SetCameraIntrinsics st fx fy cx cy).cx
            = Fp.fin (Fp.rnd 24 (Fp.rnd 24 st.frame_width / 2))
          ∧ (SetCameraIntrinsics st fx fy cx cy).cy
            = Fp.fin (Fp.rnd 24 (Fp.rnd 24 st.frame_height / 2)))
      ∧ (cx = Fp.fin (-1) → |st.frame_width| ≤ 2 ^ 24 →
        (SetCameraIntrinsics st fx fy cx cy).cx = Fp.fin ((st.frame_width : ℚ) / 2))
      ∧ (cx = Fp.fin (-1) → |st.frame_height| ≤ 2 ^ 24 →
        (SetCameraIntrinsics st fx fy cx cy).cy = Fp.fin ((st.frame_height : ℚ) / 2))
      ∧ (fx = Fp.fin (-1) →
        (SetCameraIntrinsics st fx fy cx cy).fx = (SetCameraIntrinsics st fx fy cx cy).fy
          ∧ (SetCameraIntrinsics st fx fy cx cy).fx
            = Fp.fin (Fp.rnd 24 (Fp.rnd 24
                (Fp.rnd 24 (500 * Fp.rnd 24 (Fp.rnd 24 st.frame_width / 640))
                  + Fp.rnd 24 (500 * Fp.rnd 24 (Fp.rnd 24 st.frame_height / 480))) / 2)))
      ∧ (fx = Fp.fin (-1) → 0 ≤ st.frame_width → 0 ≤ st.frame_height →
        ∃ f : ℚ, (SetCameraIntrinsics st fx fy cx cy).fx = Fp.fin f
          ∧ (SetCameraIntrinsics st fx fy cx cy).fy = Fp.fin f
          ∧ |f - (500 * ((st.frame_width : ℚ) / 640) + 500 * ((st.frame_height : ℚ) / 480)) / 2|
            ≤ (500 * ((st.frame_width : ℚ) / 640) + 500 * ((st.frame_height : ℚ) / 480)) / 2
                / 2 ^ 21) := by
  obtain ⟨h1, h2, h3, h4⟩ := SetCameraIntrinsics_eq st fx fy cx cy
  refine ⟨?_, ?_, ?_, ?_, ?_, ?_, ?_⟩
  · intro hc
    rw [h1, h2, if_neg hc, if_neg hc]
    exact ⟨rfl, rfl⟩
  · intro hf
    rw [h3, h4, if_neg hf, if_neg hf]
    exact ⟨rfl, rfl⟩
  · intro hc
    rw [h1, h2, if_pos hc, if_pos hc]
    exact ⟨rfl, rfl⟩
  · intro hc hw
    rw [h1, if_pos hc, F32_half_exact hw]
  · intro hc hh
    rw [h2, if_pos hc, F32_half_exact hh]
  · intro hf
    rw [h3, h4, if_pos hf, if_pos hf]
    exact ⟨rfl, rfl⟩
  · intro hf hw hh
    refine ⟨_, ?_, ?_, default_focal_error hw hh⟩
    · rw [h3, if_pos hf]
    · rw [h4, if_pos hf]

theorem rnd24_16777217 : Fp.rnd 24 16777217 = 16777216 := by
  rw [Fp.rnd_eq_of_rne (p := 24) (e := 24) (n := 8388608) (by norm_num) (by norm_num)
    (Fp.rne_eq_of_tie (by norm_num) (by norm_num))]
  norm_num

theorem focal_641_481 :
    F32.div (F32.add (F32.mul 500 (F32.div (F32.ofInt 641) 640))
      (F32.mul 500 (F32.div (F32.ofInt 481) 480))) 2 = 8206933 / 16384 := by
  have a1 : Fp.rnd 24 ((641 : ℤ) : ℚ) = 641 := by
    have := Fp.rnd_intCast (p := 24) (m := 641) (by norm_num)
    simpa using this
  have b1 : Fp.rnd 24 ((481 : ℤ) : ℚ) = 481 := by
    have := Fp.rnd_intCast (p := 24) (m := 481) (by norm_num)
    simpa using this
  have a2 : Fp.rnd 24 ((641 : ℚ) / 640) = 8401715 / 8388608 := by
    rw [Fp.rnd_eq_of_rne (p := 24) (e := 0) (n := 8401715) (by norm_num) (by norm_num)
      (Fp.rne_eq_of_between (by norm_num) (by norm_num))]
    norm_num
  have b2 : Fp.rnd 24 ((481 : ℚ) / 480) = 2101521 / 2097152 := by
    rw [Fp.rnd_eq_of_rne (p := 24) (e := 0) (n := 8406084) (by norm_num) (by norm_num)
      (Fp.rne_eq_of_between (by norm_num) (by norm_num))]
    norm_num
  have a3 : Fp.rnd 24 (500 * ((8401715 : ℚ) / 8388608)) = 16025 / 32 := by
    rw [Fp.rnd_eq_of_rne (p := 24) (e := 8) (n := 16409600) (by norm_num) (by norm_num)
      (Fp.rne_eq_of_between (by norm_num) (by norm_num))]
    norm_num
  have b3 : Fp.rnd 24 (500 * ((2101521 : ℚ) / 2097152)) = 16418133 / 32768 := by
    rw [Fp.rnd_eq_of_rne (p := 24) (e := 8) (n := 16418133) (by norm_num) (by norm_num)
      (Fp.rne_eq_of_between (by norm_num) (by norm_num))]
    norm_num
  have s4 : Fp.rnd 24 ((16025 : ℚ) / 32 + 16418133 / 32768) = 8206933 / 8192 := by
    rw [Fp.rnd_eq_of_rne (p := 24) (e := 9) (n := 16413866) (by norm_num) (by norm_num)
      (Fp.rne_eq_of_tie (by norm_num) (by norm_num))]
    norm_num
  have f5 : Fp.rnd 24 ((8206933 : ℚ) / 8192 / 2) = 8206933 / 16384 := by
    rw [Fp.rnd_eq_of_rne (p := 24) (e := 8) (n := 16413866) (by norm_num) (by norm_num)
      (Fp.rne_eq_of_between (by norm_num) (by norm_num))]
    norm_num
  unfold F32.div F32.add F32.mul F32.ofInt
  rw [a1, b1, a2, b2, a3, b3, s4, f5]

/-- C4, as stated, fails: a frame 16777217 wide stores the centre 8388608, not
half the width; and a frame of 641 by 481 stores the focal length
8206933 / 16384 where the formula gives 96175 / 192. -/
theorem SetCameraIntrinsics_rounds :
    (SetCameraIntrinsics (sizedState 16777217 480) unset unset unset unset).cx
        = Fp.fin 8388608
      ∧ (8388608 : ℚ) ≠ 16777217 / 2
      ∧ (SetCameraIntrinsics (sizedState 641 481) unset unset unset unset).fx
        = Fp.fin (8206933 / 16384)
      ∧ (8206933 / 16384 : ℚ) ≠ (500 * (641 / 640) + 500 * (481 / 480)) / 2 := by
  refine ⟨?_, by norm_num, ?_, by norm_num⟩
  · rw [(SetCameraIntrinsics_eq _ _ _ _ _).1, unset, if_pos rfl]
    have hw : (sizedState 16777217 480).frame_width = 16777217 := rfl
    rw [hw]
    unfold F32.div F32.ofInt
    have h1 : Fp.rnd 24 ((16777217 : ℤ) : ℚ) = 16777216 := by
      have := rnd24_16777217
      simpa using this
    have h2 : Fp.rnd 24 ((16777216 : ℚ) / 2) = 8388608 := by
      have := Fp.rnd_intCast (p := 24) (m := 8388608) (by norm_num)
      norm_num at this ⊢
      exact this
    rw [h1, h2]
  · rw [(SetCameraIntrinsics_eq _ _ _ _ _).2.2.1, unset, if_pos rfl]
    have hw : (sizedState 641 481).frame_width = 641 := rfl
    have hh : (sizedState 641 481).frame_height = 481 := rfl
    rw [hw, hh, focal_641_481]

theorem focal_640_480 :
    Fp.rnd 24 (Fp.rnd 24 (Fp.rnd 24 (500 * Fp.rnd 24 (Fp.rnd 24 ((640 : ℤ) : ℚ) / 640))
      + Fp.rnd 24 (500 * Fp.rnd 24 (Fp.rnd 24 ((480 : ℤ) : ℚ) / 480))) / 2) = 500 := by
  have e1 : Fp.rnd 24 ((640 : ℤ) : ℚ) = 640 := by
    have := Fp.rnd_intCast (p := 24) (m := 640) (by norm_num)
    simpa using this
  have e2 : Fp.rnd 24 ((480 : ℤ) : ℚ) = 480 := by
    have := Fp.rnd_intCast (p := 24) (m := 480) (by norm_num)
    simpa using this
  have e3 : Fp.rnd 24 (1 : ℚ) = 1 := by
    have := Fp.rnd_intCast (p := 24) (m := 1) (by norm_num)
    simpa using this
  have e4 : Fp.rnd 24 (500 : ℚ) = 500 := by
    have := Fp.rnd_intCast (p := 24) (m := 500) (by norm_num)
    simpa using this
  have e5 : Fp.rnd 24 (1000 : ℚ) = 1000 := by
    have := Fp.rnd_intCast (p := 24) (m := 1000) (by norm_num)
    simpa using this
  rw [e1, e2]
  norm_num
  rw [e3]
  norm_num
  rw [e4]
  norm_num
  rw [e5]
  norm_num
  exact e4

theorem SetCameraIntrinsics_stores_witness :
    |(sizedState 640 480).frame_width| ≤ 2 ^ 24
      ∧ (SetCameraIntrinsics (sizedState 640 480) unset unset unset unset).cx = Fp.fin 320
      ∧ (SetCameraIntrinsics (sizedState 640 480) unset unset unset unset).cy = Fp.fin 240
      ∧ (SetCameraIntrinsics (sizedState 640 480) unset unset unset unset).fx = Fp.fin 500
      ∧ (SetCameraIntrinsics (sizedState 640 480) unset unset unset unset).fy = Fp.fin 500
      ∧ (SetCameraIntrinsics (sizedState 640 480) (Fp.fin 700) (Fp.fin 710) (Fp.fin 300)
          (Fp.fin 200)).fy = Fp.fin 710 := by
  have h := SetCameraIntrinsics_stores (sizedState 640 480) unset unset unset unset
  have h2 := SetCameraIntrinsics_stores (sizedState 640 480) (Fp.fin 700) (Fp.fin 710)
    (Fp.fin 300) (Fp.fin 200)
  have hw : |(sizedState 640 480).frame_width| ≤ 2 ^ 24 := by decide
  have hh : |(sizedState 640 480).frame_height| ≤ 2 ^ 24 := by decide
  have c1 := h.2.2.2.1 rfl hw
  have c2 := h.2.2.2.2.1 rfl hh
  have c3 := h.2.2.2.2.2.1 rfl
  have hfx : (SetCameraIntrinsics (sizedState 640 480) unset unset unset unset).fx
      = Fp.fin 500 := by
    rw [c3.2]
    have hw2 : (sizedState 640 480).frame_width = 640 := rfl
    have hh2 : (sizedState 640 480).frame_height = 480 := rfl
    rw [hw2, hh2, focal_640_480]
  refine ⟨hw, ?_, ?_, hfx, ?_, ?_⟩
  · rw [c1]; norm_num [sizedState]
  · rw [c2]; norm_num [sizedState]
  · rw [← c3.1, hfx]
  · exact (h2.2.1 (by decide)).2

/-! ### Pulling frames -/

theorem GetNextFrame_frame_num (b : Backend Cap) (st : State Cap) :
    (GetNextFrame b st).2.frame_num = st.frame_num + 1 := by
  unfold GetNextFrame
  dsimp only
  split_ifs <;> rfl

theorem GetNextFrame_is_webcam (b : Backend Cap) (st : State Cap) :
    (GetNextFrame b st).2.is_webcam = st.is_webcam := by
  unfold GetNextFrame
  dsimp only
  split_ifs <;> rfl

theorem GetNextFrame_is_image_seq (b : Backend Cap) (st : State Cap) :
    (GetNextFrame b st).2.is_image_seq = st.is_image_seq := by
  unfold GetNextFrame
  dsimp only
  split_ifs <;> rfl

theorem GetNextFrame_vid_length (b : Backend Cap) (st : State Cap) :
    (GetNextFrame b st).2.vid_length = st.vid_length := by
  unfold GetNextFrame
  dsimp only
  split_ifs <;> rfl

theorem GetNextFrame_image_files (b : Backend Cap) (st : State Cap) :
    (GetNextFrame b st).2.image_files = st.image_files := by
  unfold GetNextFrame
  dsimp only
  split_ifs <;> rfl

theorem pulls_fields (b : Backend Cap) (st : State Cap) (n : ℕ) :
    (pulls b n st).frame_num = st.frame_num + n
      ∧ (pulls b n st).is_webcam = st.is_webcam
      ∧ (pulls b n st).is_image_seq = st.is_image_seq
      ∧ (pulls b n st).vid_length = st.vid_length
      ∧ (pulls b n st).image_files = st.image_files := by
  induction n with
  | zero => simp [pulls]
  | succ n ih =>
    obtain ⟨h1, h2, h3, h4, h5⟩ := ih
    simp only [pulls, GetNextFrame_frame_num, GetNextFrame_is_webcam, GetNextFrame_is_image_seq,
      GetNextFrame_vid_length, GetNextFrame_image_files, h1, h2, h3, h4, h5, and_true]
    omega

theorem OpenImageSequence_ok {b : Backend Cap} {st0 st : State Cap} {directory : String}
    {fx fy cx cy : Fp} (h : OpenImageSequence b st0 directory fx fy cx cy = (true, st)) :
    st.is_webcam = false ∧ st.is_image_seq = true ∧ st.frame_num = 0
      ∧ st.image_files = (List.insertionSort pathLe (b.listDirectory directory)).filter isImagePath
      ∧ st.image_files ≠ [] ∧ st.vid_length = st.image_files.length := by
  unfold OpenImageSequence at h
  simp only at h
  split at h
  · simp at h
  · rename_i first rest heq
    simp only [Prod.mk.injEq, true_and] at h
    subst h
    simp [SetCameraIntrinsics, heq]
    split_ifs <;> simp [heq]

/-- C3: after `OpenImageSequence` succeeds on `n` image paths, `n` is at least 1
and equals `vid_length`; for each `k < n`, after `k` calls of `GetNextFrame` the
object `IsOpened` and the next call reads `image_files[k]`, which it returns;
after `n` calls `IsOpened` is false, and one more call returns the empty frame,
reads no file and still increments `frame_num`, to `n + 1`. -/
theorem image_sequence_pulls (b : Backend Cap) (st0 st : State Cap) (directory : String)
    (fx fy cx cy : Fp) (h : OpenImageSequence b st0 directory fx fy cx cy = (true, st)) :
    1 ≤ st.image_files.length
      ∧ st.vid_length = st.image_files.length
      ∧ (∀ k, k < st.image_files.length →
          IsOpened b (pulls b k st) = true
            ∧ (GetNextFrame b (pulls b k st)).1 = b.imread (st.image_files.getD k "")
            ∧ (GetNextFrame b (pulls b k st)).2.log
                = (pulls b k st).log ++ [Call.imread (st.image_files.getD k "")])
      ∧ IsOpened b (pulls b st.image_files.length st) = false
      ∧ (GetNextFrame b (pulls b st.image_files.length st)).1 = Mat.empty
      ∧ (GetNextFrame b (pulls b st.image_files.length st)).2.log
          = (pulls b st.image_files.length st).log
      ∧ (GetNextFrame b (pulls b st.image_files.length st)).2.frame_num
          = st.image_files.length + 1 := by
  obtain ⟨hw, hs, hn, -, hne, hv⟩ := OpenImageSequence_ok h
  have hlen : 1 ≤ st.image_files.length := by
    cases hf : st.image_files with
    | nil => exact absurd hf hne
    | cons a l => simp
  have hp : ∀ k, (pulls b k st).frame_num = k ∧ (pulls b k st).is_webcam = false
      ∧ (pulls b k st).is_image_seq = true ∧ (pulls b k st).image_files = st.image_files := by
    intro k
    obtain ⟨h1, h2, h3, -, h5⟩ := pulls_fields b st k
    exact ⟨by omega, by rw [h2, hw], by rw [h3, hs], h5⟩
  refine ⟨hlen, hv, ?_, ?_, ?_, ?_, ?_⟩
  · intro k hk
    obtain ⟨h1, h2, h3, h4⟩ := hp k
    have hemp : st.image_files.isEmpty = false := by
      cases hf : st.image_files with
      | nil => exact absurd hf hne
      | cons a l => rfl
    have hk2 : ¬ st.image_files.length ≤ k := by omega
    refine ⟨?_, ?_, ?_⟩
    · simp [IsOpened, h1, h2, h3, h4, hk]; omega
    · simp [GetNextFrame, h1, h2, h3, h4, hemp, hk2]
    · simp [GetNextFrame, h1, h2, h3, h4, hemp, hk2]
  · obtain ⟨h1, h2, h3, h4⟩ := hp st.image_files.length
    simp [IsOpened, h1, h2, h3, h4]
  · obtain ⟨h1, h2, h3, h4⟩ := hp st.image_files.length
    simp [GetNextFrame, h1, h2, h3, h4]
  · obtain ⟨h1, h2, h3, h4⟩ := hp st.image_files.length
    simp [GetNextFrame, h1, h2, h3, h4]
  · rw [GetNextFrame_frame_num, (hp _).1]

/-- What `OpenWebcam` does with a negative device index: the three assignments
of source lines 204 to 206 and nothing else. -/
theorem OpenWebcam_negative (b : Backend Cap) (st : State Cap)
    (device image_width image_height : ℤ) (fx fy cx cy : Fp) (hd : device < 0) :
    OpenWebcam b st device image_width image_height fx fy cx cy
      = (false, { st with no_input_specified := false, frame_num := 0,
                          time_stamp := Fp.fin 0 }) := by
  simp [OpenWebcam, hd]

/-- C5, amended: `OpenWebcam` with a negative device index returns false and
makes no collaborator call: the capture handle, the image list and the two
source flags are as before, while the assignments of source lines 204 to 206
have set `frame_num` and `time_stamp` to 0 and cleared `no_input_specified`.
`IsOpened` afterwards is the open state of the handle (for an image sequence:
whether the image list is not empty), so it is false when the object held no
image sequence and its handle was closed. -/
theorem OpenWebcam_negative_device (b : Backend Cap) (st : State Cap)
    (device image_width image_height : ℤ) (fx fy cx cy : Fp) (hd : device < 0) :
    (OpenWebcam b st device image_width image_height fx fy cx cy).1 = false
      ∧ (OpenWebcam b st device image_width image_height fx fy cx cy).2.log = st.log
      ∧ (OpenWebcam b st device image_width image_height fx fy cx cy).2.capture = st.capture
      ∧ (OpenWebcam b st device image_width image_height fx fy cx cy).2.image_files
          = st.image_files
      ∧ (OpenWebcam b st device image_width image_height fx fy cx cy).2.is_webcam
          = st.is_webcam
      ∧ (OpenWebcam b st device image_width image_height fx fy cx cy).2.is_image_seq
          = st.is_image_seq
      ∧ (OpenWebcam b st device image_width image_height fx fy cx cy).2.frame_num = 0
      ∧ (OpenWebcam b st device image_width image_height fx fy cx cy).2.time_stamp = Fp.fin 0
      ∧ (OpenWebcam b st device image_width image_height fx fy cx cy).2.no_input_specified
          = false
      ∧ IsOpened b (OpenWebcam b st device image_width image_height fx fy cx cy).2
          = (if st.is_webcam || !st.is_image_seq then b.capIsOpened st.capture
              else decide (st.image_files ≠ []))
      ∧ (st.is_image_seq = false → b.capIsOpened st.capture = false →
          IsOpened b (OpenWebcam b st device image_width image_height fx fy cx cy).2 = false) := by
  rw [OpenWebcam_negative b st device image_width image_height fx fy cx cy hd]
  refine ⟨rfl, rfl, rfl, rfl, rfl, rfl, rfl, rfl, rfl, ?_, ?_⟩
  · simp only [IsOpened]
    split_ifs
    · rfl
    · cases hf : st.image_files <;> simp
  · intro h1 h2
    simp [IsOpened, h1, h2]

/-- C5, as stated, fails: on an object bound to an open video file the call
`OpenWebcam` with device -1 returns false and `IsOpened` is still true. -/
theorem OpenWebcam_negative_device_still_open :
    (OpenVideoFile sampleBackend sampleState "a.mp4" (Fp.fin (-1)) (Fp.fin (-1)) (Fp.fin (-1))
        (Fp.fin (-1))).1 = true
      ∧ (OpenWebcam sampleBackend
          (OpenVideoFile sampleBackend sampleState "a.mp4" (Fp.fin (-1)) (Fp.fin (-1))
            (Fp.fin (-1)) (Fp.fin (-1))).2
          (-1) 640 480 (Fp.fin (-1)) (Fp.fin (-1)) (Fp.fin (-1)) (Fp.fin (-1))).1 = false
      ∧ IsOpened sampleBackend (OpenWebcam sampleBackend
          (OpenVideoFile sampleBackend sampleState "a.mp4" (Fp.fin (-1)) (Fp.fin (-1))
            (Fp.fin (-1)) (Fp.fin (-1))).2
          (-1) 640 480 (Fp.fin (-1)) (Fp.fin (-1)) (Fp.fin (-1)) (Fp.fin (-1))).2 = true := by
  decide

theorem OpenWebcam_negative_device_witness :
    (-1 : ℤ) < 0
      ∧ IsOpened sampleBackend (OpenWebcam sampleBackend sampleState (-1) 640 480 (Fp.fin (-1))
          (Fp.fin (-1)) (Fp.fin (-1)) (Fp.fin (-1))).2 = false :=
  ⟨by decide,
    (OpenWebcam_negative_device sampleBackend sampleState (-1) 640 480 (Fp.fin (-1)) (Fp.fin (-1))
      (Fp.fin (-1)) (Fp.fin (-1)) (by decide)).2.2.2.2.2.2.2.2.2.2 rfl rfl⟩

/-- C10: the code breaks it. On a vector whose only token is one of the nine
flags that take a value, `Open` reads `arguments[1]`, one past the end. -/
theorem Open_reads_past_the_end (b : Backend Cap) (st : State Cap) :
    Open b st ["-f"] = Except.error (Fault.outOfRange 1 1)
      ∧ Open b st ["-fdir"] = Except.error (Fault.outOfRange 1 1)
      ∧ Open b st ["-device"] = Except.error (Fault.outOfRange 1 1)
      ∧ Open b st ["-root"] = Except.error (Fault.outOfRange 1 1)
      ∧ Open b st ["-inroot"] = Except.error (Fault.outOfRange 1 1)
      ∧ Open b st ["-fx"] = Except.error (Fault.outOfRange 1 1)
      ∧ Open b st ["-fy"] = Except.error (Fault.outOfRange 1 1)
      ∧ Open b st ["-cx"] = Except.error (Fault.outOfRange 1 1)
      ∧ Open b st ["-cy"] = Except.error (Fault.outOfRange 1 1)
      ∧ Open b st ["-verbose", "-f"] = Except.error (Fault.outOfRange 2 2) :=
  ⟨rfl, rfl, rfl, rfl, rfl, rfl, rfl, rfl, rfl, rfl⟩

theorem pathLe_iff (p q : String) : pathLe p q ↔ p ≤ q := by
  unfold pathLe
  exact String.le_iff_toList_le.symm

theorem isImagePath_iff (p : String) :
    isImagePath p = decide (extension p ∈ [".jpg", ".jpeg", ".png", ".bmp"]) := by
  simp [isImagePath, Bool.or_assoc]

theorem OpenImageSequence_image_files (b : Backend Cap) (st : State Cap) (directory : String)
    (fx fy cx cy : Fp) :
    (OpenImageSequence b st directory fx fy cx cy).2.image_files
      = (List.insertionSort pathLe (b.listDirectory directory)).filter isImagePath := by
  unfold OpenImageSequence
  simp only
  split
  · rfl
  · simp only [SetCameraIntrinsics]
    split_ifs <;> rfl

theorem OpenImageSequence_result (b : Backend Cap) (st : State Cap) (directory : String)
    (fx fy cx cy : Fp) :
    (OpenImageSequence b st directory fx fy cx cy).1
      = !((List.insertionSort pathLe (b.listDirectory directory)).filter isImagePath).isEmpty := by
  unfold OpenImageSequence
  simp only
  split
  · rename_i h; rw [h]; rfl
  · rename_i h; rw [h]; rfl

/-- C7: `OpenImageSequence` stores as `image_files` the directory entries whose
extension is one of `.jpg`, `.jpeg`, `.png`, `.bmp`, each as often as it is
listed, in ascending order of their paths; on success `vid_length` is their
count; it fails exactly when no entry has such an extension. For the listing
`b.png, a.jpg, c.bmp, note.txt` it succeeds with `[a.jpg, b.png, c.bmp]` and
`vid_length = 3`. -/
theorem OpenImageSequence_files (b : Backend Cap) (st : State Cap) (directory : String)
    (fx fy cx cy : Fp) :
    List.Sorted (fun p q : String => p ≤ q)
        (OpenImageSequence b st directory fx fy cx cy).2.image_files
      ∧ List.Perm (OpenImageSequence b st directory fx fy cx cy).2.image_files
          ((b.listDirectory directory).filter
            (fun p => decide (extension p ∈ [".jpg", ".jpeg", ".png", ".bmp"])))
      ∧ ((OpenImageSequence b st directory fx fy cx cy).1 = true →
          (OpenImageSequence b st directory fx fy cx cy).2.vid_length
            = (OpenImageSequence b st directory fx fy cx cy).2.image_files.length)
      ∧ ((OpenImageSequence b st directory fx fy cx cy).1 = false ↔
          ∀ p ∈ b.listDirectory directory, extension p ∉ [".jpg", ".jpeg", ".png", ".bmp"])
      ∧ (b.listDirectory directory = ["b.png", "a.jpg", "c.bmp", "note.txt"] →
          (OpenImageSequence b st directory fx fy cx cy).1 = true
            ∧ (OpenImageSequence b st directory fx fy cx cy).2.image_files
                = ["a.jpg", "b.png", "c.bmp"]
            ∧ (OpenImageSequence b st directory fx fy cx cy).2.vid_length = 3) := by
  have hfiles := OpenImageSequence_image_files b st directory fx fy cx cy
  have hres := OpenImageSequence_result b st directory fx fy cx cy
  have hlen : (OpenImageSequence b st directory fx fy cx cy).1 = true →
      (OpenImageSequence b st directory fx fy cx cy).2.vid_length
        = (OpenImageSequence b st directory fx fy cx cy).2.image_files.length := by
    intro h
    exact (OpenImageSequence_ok (Prod.ext h rfl)).2.2.2.2.2
  refine ⟨?_, ?_, hlen, ?_, ?_⟩
  · rw [hfiles]
    have hs : List.Sorted pathLe (List.insertionSort pathLe (b.listDirectory directory)) :=
      List.sorted_insertionSort pathLe _
    have := hs.filter isImagePath
    exact this.imp (fun h => (pathLe_iff _ _).1 h)
  · rw [hfiles]
    have hfun : (fun p => decide (extension p ∈ [".jpg", ".jpeg", ".png", ".bmp"])) = isImagePath := by
      funext p; exact (isImagePath_iff p).symm
    rw [hfun]
    exact (List.perm_insertionSort pathLe _).filter isImagePath
  · rw [hres]
    simp only [Bool.not_eq_false', List.isEmpty_iff, List.filter_eq_nil_iff]
    constructor
    · intro h p hp
      have := h p ((List.perm_insertionSort pathLe _).mem_iff.2 hp)
      rw [isImagePath_iff] at this
      simpa using this
    · intro h p hp
      have := h p ((List.perm_insertionSort pathLe _).mem_iff.1 hp)
      rw [isImagePath_iff]
      simpa using this
  · intro hl
    have h3 : (OpenImageSequence b st directory fx fy cx cy).2.image_files
        = ["a.jpg", "b.png", "c.bmp"] := by
      rw [hfiles, hl]; decide
    have h1 : (OpenImageSequence b st directory fx fy cx cy).1 = true := by
      rw [hres, hl]; decide
    refine ⟨h1, h3, ?_⟩
    rw [hlen h1, h3]; rfl

end SequenceCapture

namespace Fp

theorem rnd_eq_of_floor {p : ℕ} {e f : ℤ} {q : ℚ} (h1 : (2 : ℚ) ^ e ≤ q) (h2 : q < 2 ^ (e + 1))
    (hf : (f : ℚ) ≤ q / 2 ^ (e - (p - 1))) (hlt : q / 2 ^ (e - (p - 1)) - f < 1 / 2) :
    rnd p q = f * 2 ^ (e - (p - 1)) := by
  have hpos : 0 < q := lt_of_lt_of_le (by positivity) h1
  rw [rnd_of_log hpos.ne' (log_eq_of_bounds h1 h2)]
  have hfl : ⌊q / 2 ^ (e - ((p : ℤ) - 1))⌋ = f := by
    rw [Int.floor_eq_iff]
    constructor
    · exact hf
    · linarith
  have : rne (q / 2 ^ (e - ((p : ℤ) - 1))) = f := by
    unfold rne
    rw [hfl, if_pos hlt]
  rw [this]

theorem rnd_pos {p : ℕ} (hp : 1 ≤ p) {q : ℚ} (hq : 0 < q) : 0 < rnd p q :=
  lt_of_lt_of_le (by positivity) (rnd_bounds hp hq).1

end Fp

namespace SequenceCapture

variable {Cap : Type}

theorem F64_ofInt_exact {n : ℤ} (h : |n| < 2 ^ 53) : F64.ofInt n = n :=
  Fp.rnd_intCast h

theorem rnd53_three_tenths :
    Fp.rnd 53 (3 / 10) = 5404319552844595 / 18014398509481984 := by
  have := Fp.rnd_eq_of_floor (p := 53) (e := -2) (f := 5404319552844595) (q := 3 / 10)
    (by norm_num) (by norm_num) (by norm_num) (by norm_num)
  rw [this]
  norm_num

theorem OpenWebcam_ok {b : Backend Cap} {st0 st : State Cap}
    {device image_width image_height : ℤ} {fx fy cx cy : Fp}
    (h : OpenWebcam b st0 device image_width image_height fx fy cx cy = (true, st)) :
    st.is_webcam = true ∧ st.vid_length = 0 ∧ st.frame_num = 0 := by
  unfold OpenWebcam at h
  simp only at h
  split_ifs at h
  · simp at h
  · simp at h
  · have := (Prod.mk.inj h).2
    subst this
    simp only [SetCameraIntrinsics]
    split_ifs <;> exact ⟨rfl, rfl, rfl⟩

theorem OpenVideoFile_ok {b : Backend Cap} {st0 st : State Cap} {video_file : String}
    {fx fy cx cy : Fp} (h : OpenVideoFile b st0 video_file fx fy cx cy = (true, st)) :
    st.is_webcam = false ∧ st.frame_num = 0 := by
  unfold OpenVideoFile at h
  simp only at h
  split_ifs at h
  · simp at h
  · have := (Prod.mk.inj h).2
    subst this
    simp only [SetCameraIntrinsics]
    split_ifs <;> exact ⟨rfl, rfl⟩

/-- C6: after `k` calls of `GetNextFrame` (whatever they returned) on a webcam
source, and so on the object a successful `OpenWebcam` leaves, `GetProgress` is
-1. A successful `OpenVideoFile` or `OpenImageSequence` leaves a source that is
no webcam with `frame_num = 0` (and a positive `vid_length` for the image
sequence); on such a source with `vid_length = N > 0`, after `k` calls
`GetProgress` is the double precision quotient of `k` by `N`: the double
nearest to the fraction `k / N` for counters below 2 ^ 53, the double `0.3` for
`k = 3` and `N = 10`, and a value above 1 when `k > N` (for `N` up to 2 ^ 52,
which covers every C `int`). -/
theorem GetProgress_after_pulls (b : Backend Cap) (st : State Cap) (k : ℕ) :
    (st.is_webcam = true → GetProgress (pulls b k st) = Fp.fin (-1))
      ∧ (∀ (st0 : State Cap) (device image_width image_height : ℤ) (fx fy cx cy : Fp),
          OpenWebcam b st0 device image_width image_height fx fy cx cy = (true, st) →
          GetProgress (pulls b k st) = Fp.fin (-1))
      ∧ (∀ (st0 : State Cap) (video_file : String) (fx fy cx cy : Fp),
          OpenVideoFile b st0 video_file fx fy cx cy = (true, st) →
          st.is_webcam = false ∧ st.frame_num = 0)
      ∧ (∀ (st0 : State Cap) (directory : String) (fx fy cx cy : Fp),
          OpenImageSequence b st0 directory fx fy cx cy = (true, st) →
          st.is_webcam = false ∧ st.frame_num = 0 ∧ 0 < st.vid_length)
      ∧ (st.is_webcam = false → st.frame_num = 0 → ∀ N : ℤ, 0 < N → st.vid_length = N →
          GetProgress (pulls b k st) = Fp.fin (Fp.rnd 53 (F64.ofInt k / F64.ofInt N))
            ∧ ((k : ℤ) < 2 ^ 53 → N < 2 ^ 53 →
                GetProgress (pulls b k st) = Fp.fin (Fp.rnd 53 ((k : ℚ) / N)))
            ∧ (k = 3 → N = 10 →
                GetProgress (pulls b k st) = Fp.fin (5404319552844595 / 18014398509481984))
            ∧ (N ≤ 2 ^ 52 → N < k → ∃ q, GetProgress (pulls b k st) = Fp.fin q ∧ 1 < q)) := by
  obtain ⟨h1, h2, -, h4, -⟩ := pulls_fields b st k
  have hcam : st.is_webcam = true → GetProgress (pulls b k st) = Fp.fin (-1) := by
    intro hw
    simp [GetProgress, h2, hw]
  refine ⟨hcam, ?_, ?_, ?_, ?_⟩
  · intro st0 device image_width image_height fx fy cx cy hopen
    exact hcam (OpenWebcam_ok hopen).1
  · intro st0 video_file fx fy cx cy hopen
    exact OpenVideoFile_ok hopen
  · intro st0 directory fx fy cx cy hopen
    obtain ⟨hw, -, hn, -, hne, hv⟩ := OpenImageSequence_ok hopen
    refine ⟨hw, hn, ?_⟩
    rw [hv]
    cases hf : st.image_files with
    | nil => exact absurd hf hne
    | cons a l => simp
  · intro hw h0 N hN hv
    have hNq : (0 : ℚ) < N := by exact_mod_cast hN
    have hNne : F64.ofInt N ≠ 0 := (Fp.rnd_pos (by norm_num) hNq).ne'
    have hmain : GetProgress (pulls b k st) = Fp.fin (Fp.rnd 53 (F64.ofInt k / F64.ofInt N)) := by
      simp [GetProgress, h1, h2, h4, hw, hv, h0, F64.div, hNne]
    have hexact : (k : ℤ) < 2 ^ 53 → N < 2 ^ 53 →
        GetProgress (pulls b k st) = Fp.fin (Fp.rnd 53 ((k : ℚ) / N)) := by
      intro hk hn
      rw [hmain, F64_ofInt_exact (n := (k : ℤ)) (by rw [abs_of_nonneg (by positivity)]; exact hk),
        F64_ofInt_exact (n := N) (by rw [abs_of_pos hN]; exact hn)]
      norm_num
    refine ⟨hmain, hexact, ?_, ?_⟩
    · intro hk hn
      rw [hexact (by rw [hk]; norm_num) (by rw [hn]; norm_num), hk, hn]
      norm_num
      exact rnd53_three_tenths
    · intro hn hk
      refine ⟨_, hmain, ?_⟩
      have hNe : F64.ofInt N = N :=
        F64_ofInt_exact (by rw [abs_of_pos hN]; omega)
      have hk1 : ((N + 1 : ℤ) : ℚ) ≤ F64.ofInt k := by
        have hle : (((N + 1 : ℤ)) : ℚ) ≤ (((k : ℤ)) : ℚ) := by exact_mod_cast (by omega : N + 1 ≤ k)
        have := Fp.rnd_mono_nonneg (p := 53) (by norm_num)
          (by exact_mod_cast (by omega : (0 : ℤ) ≤ N + 1)) hle
        rw [Fp.rnd_intCast (by rw [abs_of_pos (by omega)]; omega)] at this
        exact this
      have hx : (1 : ℚ) + 2 ^ (-52 : ℤ) ≤ F64.ofInt k / F64.ofInt N := by
        rw [hNe, le_div_iff₀ hNq]
        have hN52 : (N : ℚ) ≤ 2 ^ 52 := by exact_mod_cast hn
        have : (2 : ℚ) ^ (-52 : ℤ) * N ≤ 1 := by
          have h52 : (2 : ℚ) ^ (-52 : ℤ) * 2 ^ 52 = 1 := by norm_num
          nlinarith [show (0 : ℚ) < 2 ^ (-52 : ℤ) by positivity]
        push_cast at hk1
        linarith
      have hr := Fp.rnd_mono_nonneg (p := 53) (by norm_num) (by positivity) hx
      have he := Fp.rnd_exact (p := 53) (m := 2 ^ 52 + 1) (j := -52) (by norm_num)
      have he2 : (((2 ^ 52 + 1 : ℤ)) : ℚ) * 2 ^ (-52 : ℤ) = 1 + 2 ^ (-52 : ℤ) := by
        push_cast; norm_num
      rw [he2] at he
      rw [he] at hr
      have : (0 : ℚ) < 2 ^ (-52 : ℤ) := by positivity
      linarith

theorem GetProgress_after_pulls_witness :
    GetProgress (pulls sampleBackend 3
        (OpenVideoFile sampleBackend sampleState "a.mp4" unset unset unset unset).2)
        = Fp.fin (5404319552844595 / 18014398509481984)
      ∧ (OpenWebcam sampleBackend sampleState 0 640 480 unset unset unset unset).1 = true
      ∧ GetProgress (pulls sampleBackend 5
          (OpenWebcam sampleBackend sampleState 0 640 480 unset unset unset unset).2)
        = Fp.fin (-1) :=
  ⟨((GetProgress_after_pulls sampleBackend
      (OpenVideoFile sampleBackend sampleState "a.mp4" unset unset unset unset).2 3).2.2.2.2
      (by decide) (by decide) 10 (by decide) (by decide)).2.2.1 rfl rfl,
    by decide,
    (GetProgress_after_pulls sampleBackend
      (OpenWebcam sampleBackend sampleState 0 640 480 unset unset unset unset).2 5).2.1
      sampleState 0 640 480 unset unset unset unset (Prod.ext (by decide) rfl)⟩

/-! ### The loops end within their step budget -/

theorem readArg_ne_outOfFuel (arguments : List String) (i : ℕ) :
    readArg arguments i ≠ Except.error Fault.outOfFuel := by
  unfold readArg
  split <;> simp

theorem rootLoop_ne_outOfFuel (b : Backend Cap) (arguments : List String) :
    ∀ (fuel i : ℕ) (r : String), arguments.length ≤ i + fuel →
      rootLoop b arguments fuel i r ≠ Except.error Fault.outOfFuel := by
  intro fuel
  induction fuel with
  | zero =>
    intro i r h
    have : ¬ i < arguments.length := by omega
    simp [rootLoop, this]
  | succ fuel ih =>
    intro i r h
    rw [rootLoop]
    split_ifs with hi
    · cases h1 : readArg arguments i with
      | error e =>
        simp only
        intro he
        exact readArg_ne_outOfFuel arguments i (by rw [h1, Except.error.inj he])
      | ok a =>
        simp only
        by_cases ha : a = "-root"
        · simp only [ha, if_true]
          cases h2 : readArg arguments (i + 1) with
          | error e =>
            simp only
            intro he
            exact readArg_ne_outOfFuel arguments (i + 1) (by rw [h2, Except.error.inj he])
          | ok v =>
            simp only
            rw [h2]
            simp only
            split_ifs
            · cases h3 : readArg arguments (i + 1 + 1) with
              | error e =>
                simp only
                intro he
                exact readArg_ne_outOfFuel arguments (i + 1 + 1)
                  (by rw [h3, Except.error.inj he])
              | ok w => exact ih _ _ (by omega)
            · exact ih _ _ (by omega)
        · simp only [ha, if_false, h1]
          split_ifs
          · cases h2 : readArg arguments (i + 1) with
            | error e =>
              simp only
              intro he
              exact readArg_ne_outOfFuel arguments (i + 1) (by rw [h2, Except.error.inj he])
            | ok v => exact ih _ _ (by omega)
          · exact ih _ _ (by omega)
    · simp

theorem scanLoop_ne_outOfFuel (b : Backend Cap) (root : String) (arguments : List String) :
    ∀ (fuel i : ℕ) (s : Scan), arguments.length ≤ i + fuel →
      scanLoop b root arguments fuel i s ≠ Except.error Fault.outOfFuel := by
  intro fuel
  induction fuel with
  | zero =>
    intro i s h
    have : ¬ i < arguments.length := by omega
    simp [scanLoop, this]
  | succ fuel ih =>
    intro i s h
    rw [scanLoop]
    split_ifs with hi
    · cases h1 : readArg arguments i with
      | error e =>
        simp only
        intro he
        exact readArg_ne_outOfFuel arguments i (by rw [h1, Except.error.inj he])
      | ok a =>
        simp only
        split_ifs
        · cases h2 : readArg arguments (i + 1) with
          | error e =>
            simp only
            intro he
            exact readArg_ne_outOfFuel arguments (i + 1) (by rw [h2, Except.error.inj he])
          | ok v => exact ih _ _ (by omega)
        · cases h2 : readArg arguments (i + 1) with
          | error e =>
            simp only
            intro he
            exact readArg_ne_outOfFuel arguments (i + 1) (by rw [h2, Except.error.inj he])
          | ok v => exact ih _ _ (by omega)
        · cases h2 : readArg arguments (i + 1) with
          | error e =>
            simp only
            intro he
            exact readArg_ne_outOfFuel arguments (i + 1) (by rw [h2, Except.error.inj he])
          | ok v => exact ih _ _ (by omega)
        · cases h2 : readArg arguments (i + 1) with
          | error e =>
            simp only
            intro he
            exact readArg_ne_outOfFuel arguments (i + 1) (by rw [h2, Except.error.inj he])
          | ok v => exact ih _ _ (by omega)
        · cases h2 : readArg arguments (i + 1) with
          | error e =>
            simp only
            intro he
            exact readArg_ne_outOfFuel arguments (i + 1) (by rw [h2, Except.error.inj he])
          | ok v => exact ih _ _ (by omega)
        · cases h2 : readArg arguments (i + 1) with
          | error e =>
            simp only
            intro he
            exact readArg_ne_outOfFuel arguments (i + 1) (by rw [h2, Except.error.inj he])
          | ok v => exact ih _ _ (by omega)
        · cases h2 : readArg arguments (i + 1) with
          | error e =>
            simp only
            intro he
            exact readArg_ne_outOfFuel arguments (i + 1) (by rw [h2, Except.error.inj he])
          | ok v => exact ih _ _ (by omega)
        · exact ih _ _ (by omega)
    · simp

/-- On every token vector the parsing of `Open` ends within its step budget: it
returns its locals or stops at a read past the end of the vector. -/
theorem scanArguments_ne_outOfFuel (b : Backend Cap) (arguments : List String) :
    scanArguments b arguments ≠ Except.error Fault.outOfFuel := by
  unfold scanArguments
  cases h1 : rootLoop b arguments arguments.length 0 "" with
  | error e =>
    simp only
    intro he
    exact rootLoop_ne_outOfFuel b arguments arguments.length 0 "" (by omega)
      (by rw [h1, Except.error.inj he])
  | ok r => exact scanLoop_ne_outOfFuel b r arguments arguments.length 0 _ (by omega)

/-- The model of `Open` never stops for lack of steps. -/
theorem Open_ne_outOfFuel (b : Backend Cap) (st : State Cap) (arguments : List String) :
    Open b st arguments ≠ Except.error Fault.outOfFuel := by
  unfold Open
  cases h1 : scanArguments b arguments with
  | error e =>
    simp only
    intro he
    exact scanArguments_ne_outOfFuel b arguments (by rw [h1, Except.error.inj he])
  | ok s =>
    simp only
    split_ifs <;> simp

/-! ### Reading the vector -/

theorem readArg_append (pre : List String) (a : String) (rest : List String) :
    readArg (pre ++ a :: rest) pre.length = Except.ok a := by
  have : (pre ++ a :: rest).get? pre.length = some a := by
    rw [List.get?_eq_getElem?, List.getElem?_append_right (le_refl _)]
    simp
  simp only [readArg, this]

theorem readArg_append_succ (pre : List String) (a c : String) (rest : List String) :
    readArg (pre ++ a :: c :: rest) (pre.length + 1) = Except.ok c := by
  have := readArg_append (pre ++ [a]) c rest
  simpa using this

theorem valueFlags_ne {v : String} (h : v ∉ valueFlags) :
    v ≠ "-root" ∧ v ≠ "-inroot" ∧ v ≠ "-f" ∧ v ≠ "-fdir" ∧ v ≠ "-fx" ∧ v ≠ "-fy" ∧ v ≠ "-cx"
      ∧ v ≠ "-cy" ∧ v ≠ "-device" := by
  simpa [valueFlags, not_or] using h

theorem paired_of_wellFormed {it : Item} (h : it.wellFormed) : it.paired := by
  cases it with
  | plain t => exact h
  | flag f v => exact ⟨h.1, h.2.1⟩

/-! ### The root prepass on command lines of flags with their values -/

theorem rootLoop_skip (b : Backend Cap) (pre : List String) (a : String) (rest : List String)
    (fuel : ℕ) (r : String) (h1 : a ≠ "-root") (h2 : a ≠ "-inroot") :
    rootLoop b (pre ++ a :: rest) (fuel + 1) pre.length r
      = rootLoop b (pre ++ a :: rest) fuel (pre.length + 1) r := by
  simp [rootLoop, readArg_append, h1, h2]

theorem rootLoop_items (b : Backend Cap) (items : List Item)
    (hwf : ∀ it ∈ items, it.paired) :
    ∀ (pre : List String) (r : String) (fuel : ℕ), (tokensOf items).length ≤ fuel →
      rootLoop b (pre ++ tokensOf items) fuel pre.length r
        = Except.ok (items.foldl (rootStep b.separator) r) := by
  induction items with
  | nil =>
    intro pre r fuel _
    cases fuel <;> simp [rootLoop, tokensOf]
  | cons it rest ih =>
    intro pre r fuel hfuel
    have hrest : ∀ it ∈ rest, it.paired := fun x hx => hwf x (List.mem_cons_of_mem _ hx)
    have hit := hwf it (List.mem_cons_self _ _)
    cases it with
    | plain t =>
      obtain ⟨h1, h2, -⟩ := valueFlags_ne hit
      simp only [tokensOf, Item.tokens, List.length_append, List.length_cons, List.length_nil,
        List.singleton_append] at hfuel ⊢
      obtain ⟨fuel, rfl⟩ : ∃ f, fuel = f + 1 := ⟨fuel - 1, by omega⟩
      rw [rootLoop_skip b pre t _ fuel r h1 h2]
      have := ih hrest (pre ++ [t]) r fuel (by omega)
      simp only [List.append_assoc, List.singleton_append, List.length_append, List.length_cons,
        List.length_nil] at this
      rw [this]
      simp [rootStep, Item.isRoot]
    | flag f v =>
      obtain ⟨hf, hv⟩ := hit
      obtain ⟨v1, v2, -⟩ := valueFlags_ne hv
      simp only [tokensOf, Item.tokens, List.length_append, List.length_cons, List.length_nil,
        List.cons_append, List.nil_append] at hfuel ⊢
      obtain ⟨fuel, rfl⟩ : ∃ f, fuel = f + 1 + 1 := ⟨fuel - 2, by omega⟩
      have hih := ih hrest (pre ++ [f, v]) (rootStep b.separator r (Item.flag f v))
      have hlen : (pre ++ [f, v]).length = pre.length + 1 + 1 := by simp
      rw [hlen] at hih
      simp only [List.append_assoc, List.cons_append, List.nil_append] at hih
      by_cases hroot : f = "-root"
      · subst hroot
        have hstep : rootLoop b (pre ++ "-root" :: v :: tokensOf rest) (fuel + 1 + 1) pre.length r
            = rootLoop b (pre ++ "-root" :: v :: tokensOf rest) (fuel + 1) (pre.length + 1 + 1)
                (v ++ b.separator) := by
          simp [rootLoop, readArg_append, readArg_append_succ, v2]
        have hval : rootStep b.separator r (Item.flag "-root" v) = v ++ b.separator := by
          simp [rootStep, Item.isRoot, Item.value]
        rw [hstep, List.foldl_cons, ← hval, hih (fuel + 1) (by omega)]
      · by_cases hin : f = "-inroot"
        · subst hin
          have hstep : rootLoop b (pre ++ "-inroot" :: v :: tokensOf rest) (fuel + 1 + 1)
                pre.length r
              = rootLoop b (pre ++ "-inroot" :: v :: tokensOf rest) (fuel + 1) (pre.length + 1 + 1)
                  (v ++ b.separator) := by
            simp [rootLoop, readArg_append, readArg_append_succ]
          have hval : rootStep b.separator r (Item.flag "-inroot" v) = v ++ b.separator := by
            simp [rootStep, Item.isRoot, Item.value]
          rw [hstep, List.foldl_cons, ← hval, hih (fuel + 1) (by omega)]
        · rw [rootLoop_skip b pre f _ (fuel + 1) r hroot hin]
          have hskip := rootLoop_skip b (pre ++ [f]) v (tokensOf rest) fuel r v1 v2
          have hlen1 : (pre ++ [f]).length = pre.length + 1 := by simp
          rw [hlen1] at hskip
          simp only [List.append_assoc, List.singleton_append] at hskip
          have hval : rootStep b.separator r (Item.flag f v) = r := by
            simp [rootStep, Item.isRoot, hroot, hin]
          have hfin := hih fuel (by omega)
          rw [hval] at hfin
          rw [hskip, List.foldl_cons, hval, hfin]

/-! ### The main loop on well formed command lines -/

theorem valid_set_two (m : List Bool) (n : ℕ) :
    ((m ++ List.replicate (n + 1 + 1) true).set m.length false).set (m.length + 1) false
      = (m ++ [false, false]) ++ List.replicate n true := by
  induction m with
  | nil => simp [List.replicate_succ]
  | cons a m ih => simpa using ih

theorem valid_one (m : List Bool) (n : ℕ) :
    m ++ List.replicate (n + 1) true = (m ++ [true]) ++ List.replicate n true := by
  simp [List.replicate_succ]

theorem valid_two (m : List Bool) (n : ℕ) :
    m ++ List.replicate (n + 1 + 1) true = (m ++ [true, true]) ++ List.replicate n true := by
  simp [List.replicate_succ]

theorem scanLoop_skip (b : Backend Cap) (root : String) (pre : List String) (a : String)
    (rest : List String) (fuel : ℕ) (s : Scan)
    (h1 : s.file_found = true ∨ a ≠ "-f") (h2 : s.file_found = true ∨ a ≠ "-fdir")
    (h3 : a ≠ "-fx") (h4 : a ≠ "-fy") (h5 : a ≠ "-cx") (h6 : a ≠ "-cy") (h7 : a ≠ "-device") :
    scanLoop b root (pre ++ a :: rest) (fuel + 1) pre.length s
      = scanLoop b root (pre ++ a :: rest) fuel (pre.length + 1) s := by
  have e1 : (!s.file_found && decide (a = "-f")) = false := by
    rcases h1 with h | h <;> simp [h]
  have e2 : (!s.file_found && decide (a = "-fdir")) = false := by
    rcases h2 with h | h <;> simp [h]
  simp [scanLoop, readArg_append, e1, e2, h3, h4, h5, h6, h7]

theorem scanLoop_plain (b : Backend Cap) (root : String) (pre : List String) (a : String)
    (rest : List String) (fuel : ℕ) (s : Scan) (ha : a ∉ valueFlags) :
    scanLoop b root (pre ++ a :: rest) (fuel + 1) pre.length s
      = scanLoop b root (pre ++ a :: rest) fuel (pre.length + 1) s := by
  obtain ⟨-, -, h1, h2, h3, h4, h5, h6, h7⟩ := valueFlags_ne ha
  exact scanLoop_skip b root pre a rest fuel s (Or.inr h1) (Or.inr h2) h3 h4 h5 h6 h7

/-- A flag the loop passes over, together with its value. -/
theorem scanLoop_skip_flag (b : Backend Cap) (root : String) (pre : List String) (f v : String)
    (rest : List String) (fuel : ℕ) (s : Scan) (hv : v ∉ valueFlags)
    (h1 : s.file_found = true ∨ f ≠ "-f") (h2 : s.file_found = true ∨ f ≠ "-fdir")
    (h3 : f ≠ "-fx") (h4 : f ≠ "-fy") (h5 : f ≠ "-cx") (h6 : f ≠ "-cy") (h7 : f ≠ "-device") :
    scanLoop b root (pre ++ f :: v :: rest) (fuel + 1 + 1) pre.length s
      = scanLoop b root (pre ++ f :: v :: rest) fuel (pre.length + 1 + 1) s := by
  rw [scanLoop_skip b root pre f (v :: rest) (fuel + 1) s h1 h2 h3 h4 h5 h6 h7]
  have := scanLoop_plain b root (pre ++ [f]) v rest fuel s hv
  have hlen : (pre ++ [f]).length = pre.length + 1 := by simp
  rw [hlen] at this
  simpa using this

theorem scanLoop_f (b : Backend Cap) (root : String) (pre : List String) (v : String)
    (rest : List String) (fuel : ℕ) (s : Scan) (hfound : s.file_found = false) :
    scanLoop b root (pre ++ "-f" :: v :: rest) (fuel + 1) pre.length s
      = scanLoop b root (pre ++ "-f" :: v :: rest) fuel (pre.length + 1 + 1)
          { s with
            input_video_file := root ++ v
            valid := (s.valid.set pre.length false).set (pre.length + 1) false
            file_found := true } := by
  rw [scanLoop]
  simp [readArg_append, readArg_append_succ, hfound]

theorem scanLoop_fdir (b : Backend Cap) (root : String) (pre : List String) (v : String)
    (rest : List String) (fuel : ℕ) (s : Scan) (hfound : s.file_found = false) :
    scanLoop b root (pre ++ "-fdir" :: v :: rest) (fuel + 1) pre.length s
      = scanLoop b root (pre ++ "-fdir" :: v :: rest) fuel (pre.length + 1 + 1)
          { s with
            input_sequence_directory := root ++ v
            valid := (s.valid.set pre.length false).set (pre.length + 1) false
            file_found := true } := by
  rw [scanLoop]
  simp [readArg_append, readArg_append_succ, hfound]

theorem scanLoop_fx (b : Backend Cap) (root : String) (pre : List String) (v : String)
    (rest : List String) (fuel : ℕ) (s : Scan) :
    scanLoop b root (pre ++ "-fx" :: v :: rest) (fuel + 1) pre.length s
      = scanLoop b root (pre ++ "-fx" :: v :: rest) fuel (pre.length + 1 + 1)
          { s with fx := b.parseFloat v s.fx } := by
  rw [scanLoop]
  simp [readArg_append, readArg_append_succ]

theorem scanLoop_fy (b : Backend Cap) (root : String) (pre : List String) (v : String)
    (rest : List String) (fuel : ℕ) (s : Scan) :
    scanLoop b root (pre ++ "-fy" :: v :: rest) (fuel + 1) pre.length s
      = scanLoop b root (pre ++ "-fy" :: v :: rest) fuel (pre.length + 1 + 1)
          { s with fy := b.parseFloat v s.fy } := by
  rw [scanLoop]
  simp [readArg_append, readArg_append_succ]

theorem scanLoop_cx (b : Backend Cap) (root : String) (pre : List String) (v : String)
    (rest : List String) (fuel : ℕ) (s : Scan) :
    scanLoop b root (pre ++ "-cx" :: v :: rest) (fuel + 1) pre.length s
      = scanLoop b root (pre ++ "-cx" :: v :: rest) fuel (pre.length + 1 + 1)
          { s with cx := b.parseFloat v s.cx } := by
  rw [scanLoop]
  simp [readArg_append, readArg_append_succ]

theorem scanLoop_cy (b : Backend Cap) (root : String) (pre : List String) (v : String)
    (rest : List String) (fuel : ℕ) (s : Scan) :
    scanLoop b root (pre ++ "-cy" :: v :: rest) (fuel + 1) pre.length s
      = scanLoop b root (pre ++ "-cy" :: v :: rest) fuel (pre.length + 1 + 1)
          { s with cy := b.parseFloat v s.cy } := by
  rw [scanLoop]
  simp [readArg_append, readArg_append_succ]

theorem scanLoop_device (b : Backend Cap) (root : String) (pre : List String) (v : String)
    (rest : List String) (fuel : ℕ) (s : Scan) :
    scanLoop b root (pre ++ "-device" :: v :: rest) (fuel + 1) pre.length s
      = scanLoop b root (pre ++ "-device" :: v :: rest) fuel (pre.length + 1 + 1)
          { s with
            device := b.parseInt v s.device
            valid := (s.valid.set pre.length false).set (pre.length + 1) false } := by
  rw [scanLoop]
  simp [readArg_append, readArg_append_succ]

theorem scanLoop_items (b : Backend Cap) (root : String) (items : List Item)
    (hwf : ∀ it ∈ items, it.paired) :
    ∀ (pre : List String) (s : Scan) (fuel : ℕ), s.valid.length = pre.length →
      (tokensOf items).length ≤ fuel →
      scanLoop b root (pre ++ tokensOf items) fuel pre.length
          { s with valid := s.valid ++ List.replicate (tokensOf items).length true }
        = Except.ok (items.foldl (itemStep b root) s) := by
  induction items with
  | nil =>
    intro pre s fuel _ _
    cases fuel <;> simp [scanLoop, tokensOf]
  | cons it rest ih =>
    intro pre s fuel hlen hfuel
    have hrest : ∀ it ∈ rest, it.paired := fun x hx => hwf x (List.mem_cons_of_mem _ hx)
    have hit := hwf it (List.mem_cons_self _ _)
    cases it with
    | plain t =>
      simp only [tokensOf, Item.tokens, List.length_append, List.length_cons, List.length_nil,
        List.singleton_append] at hfuel ⊢
      obtain ⟨fuel, rfl⟩ : ∃ f, fuel = f + 1 := ⟨fuel - 1, by omega⟩
      rw [scanLoop_plain b root pre t _ fuel _ hit]
      have := ih hrest (pre ++ [t]) (itemStep b root s (Item.plain t)) fuel
        (by simp [itemStep, hlen]) (by omega)
      have hl : (pre ++ [t]).length = pre.length + 1 := by simp
      rw [hl] at this
      simp only [List.append_assoc, List.singleton_append] at this
      rw [List.foldl_cons, ← this]
      simp [itemStep, List.replicate_succ]
    | flag f v =>
      obtain ⟨hf, hv⟩ := hit
      simp only [tokensOf, Item.tokens, List.length_append, List.length_cons, List.length_nil,
        List.cons_append, List.nil_append] at hfuel ⊢
      obtain ⟨fuel, rfl⟩ : ∃ f, fuel = f + 1 + 1 := ⟨fuel - 2, by omega⟩
      have hl : (pre ++ [f, v]).length = pre.length + 1 + 1 := by simp
      have hih := fun h => ih hrest (pre ++ [f, v]) (itemStep b root s (Item.flag f v)) (fuel + 1)
        h (by omega)
      rw [hl] at hih
      simp only [List.append_assoc, List.cons_append, List.nil_append] at hih
      have hih0 := fun h => ih hrest (pre ++ [f, v]) (itemStep b root s (Item.flag f v)) fuel
        h (by omega)
      rw [hl] at hih0
      simp only [List.append_assoc, List.cons_append, List.nil_append] at hih0
      rw [List.foldl_cons]
      simp only [valueFlags, List.mem_cons, List.mem_singleton, List.not_mem_nil, or_false] at hf
      cases hfound : s.file_found
      · rcases hf with rfl | rfl | rfl | rfl | rfl | rfl | rfl | rfl | rfl
        · rw [scanLoop_skip_flag b root pre _ v _ fuel _ hv (by simp [hfound]) (by simp [hfound])
            (by simp) (by simp) (by simp) (by simp) (by simp),
            ← hih0 (by simp [itemStep, hfound, hlen])]
          simp [itemStep, hfound, List.replicate_succ]
        · rw [scanLoop_skip_flag b root pre _ v _ fuel _ hv (by simp [hfound]) (by simp [hfound])
            (by simp) (by simp) (by simp) (by simp) (by simp),
            ← hih0 (by simp [itemStep, hfound, hlen])]
          simp [itemStep, hfound, List.replicate_succ]
        · rw [scanLoop_f b root pre v _ (fuel + 1) _ rfl, ← hih (by simp [itemStep, hfound, hlen])]
          simp [itemStep, hfound, ← hlen, valid_set_two, List.replicate_succ]
        · rw [scanLoop_fdir b root pre v _ (fuel + 1) _ rfl, ← hih (by simp [itemStep, hfound, hlen])]
          simp [itemStep, hfound, ← hlen, valid_set_two, List.replicate_succ]
        · rw [scanLoop_fx, ← hih (by simp [itemStep, hfound, hlen])]
          simp [itemStep, hfound, ← hlen, valid_set_two, List.replicate_succ]
        · rw [scanLoop_fy, ← hih (by simp [itemStep, hfound, hlen])]
          simp [itemStep, hfound, ← hlen, valid_set_two, List.replicate_succ]
        · rw [scanLoop_cx, ← hih (by simp [itemStep, hfound, hlen])]
          simp [itemStep, hfound, ← hlen, valid_set_two, List.replicate_succ]
        · rw [scanLoop_cy, ← hih (by simp [itemStep, hfound, hlen])]
          simp [itemStep, hfound, ← hlen, valid_set_two, List.replicate_succ]
        · rw [scanLoop_device, ← hih (by simp [itemStep, hfound, hlen])]
          simp [itemStep, hfound, ← hlen, valid_set_two, List.replicate_succ]
      · rcases hf with rfl | rfl | rfl | rfl | rfl | rfl | rfl | rfl | rfl
        · rw [scanLoop_skip_flag b root pre _ v _ fuel _ hv (by simp [hfound]) (by simp [hfound])
            (by simp) (by simp) (by simp) (by simp) (by simp),
            ← hih0 (by simp [itemStep, hfound, hlen])]
          simp [itemStep, hfound, List.replicate_succ]
        · rw [scanLoop_skip_flag b root pre _ v _ fuel _ hv (by simp [hfound]) (by simp [hfound])
            (by simp) (by simp) (by simp) (by simp) (by simp),
            ← hih0 (by simp [itemStep, hfound, hlen])]
          simp [itemStep, hfound, List.replicate_succ]
        · rw [scanLoop_skip_flag b root pre _ v _ fuel _ hv (by simp [hfound]) (by simp [hfound])
            (by simp) (by simp) (by simp) (by simp) (by simp),
            ← hih0 (by simp [itemStep, hfound, hlen])]
          simp [itemStep, hfound, List.replicate_succ]
        · rw [scanLoop_skip_flag b root pre _ v _ fuel _ hv (by simp [hfound]) (by simp [hfound])
            (by simp) (by simp) (by simp) (by simp) (by simp),
            ← hih0 (by simp [itemStep, hfound, hlen])]
          simp [itemStep, hfound, List.replicate_succ]
        · rw [scanLoop_fx, ← hih (by simp [itemStep, hfound, hlen])]
          simp [itemStep, hfound, ← hlen, valid_set_two, List.replicate_succ]
        · rw [scanLoop_fy, ← hih (by simp [itemStep, hfound, hlen])]
          simp [itemStep, hfound, ← hlen, valid_set_two, List.replicate_succ]
        · rw [scanLoop_cx, ← hih (by simp [itemStep, hfound, hlen])]
          simp [itemStep, hfound, ← hlen, valid_set_two, List.replicate_succ]
        · rw [scanLoop_cy, ← hih (by simp [itemStep, hfound, hlen])]
          simp [itemStep, hfound, ← hlen, valid_set_two, List.replicate_succ]
        · rw [scanLoop_device, ← hih (by simp [itemStep, hfound, hlen])]
          simp [itemStep, hfound, ← hlen, valid_set_two, List.replicate_succ]

/-! ### What the fold over the items computes -/

theorem foldl_itemStep_device (b : Backend Cap) (root : String) (items : List Item) :
    ∀ s : Scan, (items.foldl (itemStep b root) s).device
      = items.foldl (fun d it => if it.isDevice then b.parseInt it.value d else d) s.device := by
  induction items with
  | nil => intro s; rfl
  | cons it rest ih =>
    intro s
    rw [List.foldl_cons, List.foldl_cons, ih]
    congr 1
    cases it with
    | plain t => simp [itemStep, Item.isDevice]
    | flag f v =>
      simp only [itemStep, Item.isDevice, Item.value]
      split_ifs <;> simp_all

theorem foldl_itemStep_fx (b : Backend Cap) (root : String) (items : List Item) :
    ∀ s : Scan, (items.foldl (itemStep b root) s).fx
      = items.foldl (fun x it => if it.isFlag "-fx" then b.parseFloat it.value x else x) s.fx := by
  induction items with
  | nil => intro s; rfl
  | cons it rest ih =>
    intro s
    rw [List.foldl_cons, List.foldl_cons, ih]
    congr 1
    cases it with
    | plain t => simp [itemStep, Item.isFlag]
    | flag f v =>
      simp only [itemStep, Item.isFlag, Item.value]
      split_ifs <;> simp_all

theorem foldl_itemStep_fy (b : Backend Cap) (root : String) (items : List Item) :
    ∀ s : Scan, (items.foldl (itemStep b root) s).fy
      = items.foldl (fun x it => if it.isFlag "-fy" then b.parseFloat it.value x else x) s.fy := by
  induction items with
  | nil => intro s; rfl
  | cons it rest ih =>
    intro s
    rw [List.foldl_cons, List.foldl_cons, ih]
    congr 1
    cases it with
    | plain t => simp [itemStep, Item.isFlag]
    | flag f v =>
      simp only [itemStep, Item.isFlag, Item.value]
      split_ifs <;> simp_all

theorem foldl_itemStep_cx (b : Backend Cap) (root : String) (items : List Item) :
    ∀ s : Scan, (items.foldl (itemStep b root) s).cx
      = items.foldl (fun x it => if it.isFlag "-cx" then b.parseFloat it.value x else x) s.cx := by
  induction items with
  | nil => intro s; rfl
  | cons it rest ih =>
    intro s
    rw [List.foldl_cons, List.foldl_cons, ih]
    congr 1
    cases it with
    | plain t => simp [itemStep, Item.isFlag]
    | flag f v =>
      simp only [itemStep, Item.isFlag, Item.value]
      split_ifs <;> simp_all

theorem foldl_itemStep_cy (b : Backend Cap) (root : String) (items : List Item) :
    ∀ s : Scan, (items.foldl (itemStep b root) s).cy
      = items.foldl (fun x it => if it.isFlag "-cy" then b.parseFloat it.value x else x) s.cy := by
  induction items with
  | nil => intro s; rfl
  | cons it rest ih =>
    intro s
    rw [List.foldl_cons, List.foldl_cons, ih]
    congr 1
    cases it with
    | plain t => simp [itemStep, Item.isFlag]
    | flag f v =>
      simp only [itemStep, Item.isFlag, Item.value]
      split_ifs <;> simp_all

/-- Once a source flag was consumed, the rest of the line changes neither path. -/
theorem foldl_itemStep_found (b : Backend Cap) (root : String) (items : List Item) :
    ∀ s : Scan, s.file_found = true →
      (items.foldl (itemStep b root) s).file_found = true
        ∧ (items.foldl (itemStep b root) s).input_video_file = s.input_video_file
        ∧ (items.foldl (itemStep b root) s).input_sequence_directory
            = s.input_sequence_directory := by
  induction items with
  | nil => intro s h; exact ⟨h, rfl, rfl⟩
  | cons it rest ih =>
    intro s h
    rw [List.foldl_cons]
    have hstep : (itemStep b root s it).file_found = true
        ∧ (itemStep b root s it).input_video_file = s.input_video_file
        ∧ (itemStep b root s it).input_sequence_directory = s.input_sequence_directory := by
      cases it with
      | plain t => simp [itemStep, h]
      | flag f v =>
        simp only [itemStep, h]
        split_ifs <;> simp_all
    obtain ⟨h1, h2, h3⟩ := ih _ hstep.1
    exact ⟨h1, h2.trans hstep.2.1, h3.trans hstep.2.2⟩

theorem foldl_itemStep_source (b : Backend Cap) (root : String) (items : List Item) :
    ∀ s : Scan, s.file_found = false →
      (items.foldl (itemStep b root) s).file_found = (firstSource items).isSome
        ∧ (items.foldl (itemStep b root) s).input_video_file
            = (match firstSource items with
              | some it => if it.isFlag "-f" then root ++ it.value else s.input_video_file
              | none => s.input_video_file)
        ∧ (items.foldl (itemStep b root) s).input_sequence_directory
            = (match firstSource items with
              | some it => if it.isFlag "-fdir" then root ++ it.value
                  else s.input_sequence_directory
              | none => s.input_sequence_directory) := by
  induction items with
  | nil => intro s h; simp [firstSource, h]
  | cons it rest ih =>
    intro s h
    rw [List.foldl_cons]
    by_cases hsrc : it.isSource = true
    · have hfs : firstSource (it :: rest) = some it := by simp [firstSource, hsrc]
      rw [hfs]
      cases it with
      | plain t => simp [Item.isSource] at hsrc
      | flag f v =>
        simp only [Item.isSource, Bool.or_eq_true, decide_eq_true_eq] at hsrc
        rcases hsrc with rfl | rfl
        · obtain ⟨h1, h2, h3⟩ := foldl_itemStep_found b root rest
            (itemStep b root s (Item.flag "-f" v)) (by simp [itemStep, h])
          rw [h1, h2, h3]
          simp [itemStep, h, Item.isFlag, Item.value]
        · obtain ⟨h1, h2, h3⟩ := foldl_itemStep_found b root rest
            (itemStep b root s (Item.flag "-fdir" v)) (by simp [itemStep, h])
          rw [h1, h2, h3]
          simp [itemStep, h, Item.isFlag, Item.value]
    · have hfs : firstSource (it :: rest) = firstSource rest := by
        simp [firstSource, List.find?_cons, hsrc]
      rw [hfs]
      have hstep : (itemStep b root s it).file_found = false
          ∧ (itemStep b root s it).input_video_file = s.input_video_file
          ∧ (itemStep b root s it).input_sequence_directory = s.input_sequence_directory := by
        cases it with
        | plain t => simp [itemStep, h]
        | flag f v =>
          simp only [Item.isSource, Bool.or_eq_true, decide_eq_true_eq, not_or] at hsrc
          simp only [itemStep, h]
          split_ifs <;> simp_all
      obtain ⟨h1, h2, h3⟩ := ih _ hstep.1
      rw [h1, h2, h3, hstep.2.1, hstep.2.2]
      exact ⟨rfl, rfl, rfl⟩

/-! ### Erasing the consumed tokens -/

theorem keepValid_append (as as2 : List String) :
    ∀ (vs vs2 : List Bool), vs.length = as.length →
      keepValid (as ++ as2) (vs ++ vs2) = keepValid as vs ++ keepValid as2 vs2 := by
  induction as with
  | nil =>
    intro vs vs2 h
    have : vs = [] := List.length_eq_zero.1 h
    subst this
    cases as2 <;> cases vs2 <;> simp [keepValid]
  | cons a as ih =>
    intro vs vs2 h
    cases vs with
    | nil => simp at h
    | cons v vs =>
      simp only [List.length_cons, add_left_inj] at h
      simp only [List.cons_append, keepValid]
      split_ifs <;> simp [ih vs vs2 h]

theorem keepValid_nil_right (as : List String) : keepValid as [] = [] := by
  cases as <;> simp [keepValid]

theorem eraseLoop_append (arguments : List String) :
    ∀ (valid vtail : List Bool) (tail : List String), valid.length = arguments.length →
      eraseLoop (valid ++ vtail) arguments.length (arguments ++ tail)
        = keepValid arguments valid ++ tail := by
  induction arguments using List.reverseRecOn with
  | nil =>
    intro valid vtail tail h
    simp [eraseLoop, keepValid]
  | append_singleton l a ih =>
    intro valid vtail tail h
    obtain ⟨vl, v, rfl⟩ : ∃ vl v, valid = vl ++ [v] := by
      rcases List.eq_nil_or_concat valid with h0 | ⟨vl, v, hv⟩
      · subst h0; simp at h
      · exact ⟨vl, v, by simpa using hv⟩
    have hl : vl.length = l.length := by simpa using h
    have hget : (vl ++ [v] ++ vtail).getD l.length true = v := by
      have : (vl ++ [v] ++ vtail)[vl.length]? = some v := by
        rw [List.append_assoc, List.getElem?_append_right (le_refl _)]
        simp
      rw [← hl, List.getD_eq_getElem?_getD, this]
      rfl
    have herase : (l ++ [a] ++ tail).eraseIdx l.length = l ++ tail := by
      simp [List.eraseIdx_append_of_length_le]
    rw [List.length_append, List.length_singleton, eraseLoop, hget]
    rw [keepValid_append l [a] vl [v] hl]
    cases v with
    | false =>
      rw [if_pos rfl, herase]
      have := ih vl ([false] ++ vtail) tail hl
      simp only [List.append_assoc] at this ⊢
      rw [this]
      simp [keepValid]
    | true =>
      rw [if_neg (by simp)]
      have := ih vl ([true] ++ vtail) ([a] ++ tail) hl
      simp only [List.append_assoc] at this ⊢
      rw [this]
      simp [keepValid]

theorem eraseLoop_eq_keepValid (arguments : List String) (valid : List Bool)
    (h : valid.length = arguments.length) :
    eraseLoop valid arguments.length arguments = keepValid arguments valid := by
  have := eraseLoop_append arguments valid [] [] h
  simpa using this

theorem itemStep_valid_length (b : Backend Cap) (root : String) (s : Scan) (it : Item) :
    (itemStep b root s it).valid.length = s.valid.length + it.tokens.length := by
  cases it with
  | plain t => simp [itemStep, Item.tokens]
  | flag f v =>
    simp only [itemStep, Item.tokens]
    split_ifs <;> simp

theorem foldl_itemStep_valid_length (b : Backend Cap) (root : String) (items : List Item) :
    ∀ s : Scan, (items.foldl (itemStep b root) s).valid.length
      = s.valid.length + (tokensOf items).length := by
  induction items with
  | nil => intro s; simp [tokensOf]
  | cons it rest ih =>
    intro s
    rw [List.foldl_cons, ih, itemStep_valid_length]
    simp [tokensOf]
    omega

theorem itemStep_flag_valid (b : Backend Cap) (root : String) (s : Scan) (f v : String) :
    (itemStep b root s (Item.flag f v)).valid
      = s.valid ++ (if (!s.file_found && (decide (f = "-f") || decide (f = "-fdir")))
          || decide (f = "-device") then [false, false] else [true, true]) := by
  simp only [itemStep]
  split_ifs <;> simp_all

theorem itemStep_flag_found (b : Backend Cap) (root : String) (s : Scan) (f v : String) :
    (itemStep b root s (Item.flag f v)).file_found
      = (s.file_found || (decide (f = "-f") || decide (f = "-fdir"))) := by
  cases hff : s.file_found <;> simp only [itemStep, hff] <;> split_ifs <;> simp_all

theorem foldl_itemStep_keepValid (b : Backend Cap) (root : String) (items : List Item) :
    ∀ (s : Scan) (pre : List String), s.valid.length = pre.length →
      keepValid (pre ++ tokensOf items) (items.foldl (itemStep b root) s).valid
        = keepValid pre s.valid ++ tokensOf (dropSelection s.file_found items) := by
  induction items with
  | nil =>
    intro s pre h
    simp [tokensOf, dropSelection, keepValid]
  | cons it rest ih =>
    intro s pre h
    have hlen : (itemStep b root s it).valid.length = (pre ++ it.tokens).length := by
      rw [itemStep_valid_length, List.length_append, h]
    have := ih (itemStep b root s it) (pre ++ it.tokens) hlen
    rw [List.foldl_cons]
    simp only [tokensOf, ← List.append_assoc]
    rw [this]
    cases it with
    | plain t =>
      have hk := keepValid_append pre [t] s.valid [true] h
      simp [itemStep, Item.tokens, dropSelection, Item.isSource, Item.isDevice, tokensOf, hk,
        keepValid]
    | flag f v =>
      have hk := fun m => keepValid_append pre [f, v] s.valid m h
      rw [itemStep_flag_valid, itemStep_flag_found]
      simp only [Item.tokens, dropSelection, Item.isSource, Item.isDevice, hk]
      clear this ih hlen hk h
      cases s.file_found <;> by_cases hf1 : f = "-f" <;> by_cases hf2 : f = "-fdir" <;>
        by_cases hd : f = "-device" <;>
        simp_all [keepValid, tokensOf, Item.tokens]

theorem dropSelection_true (items : List Item) :
    dropSelection true items = items.filter (fun it => !it.isDevice) := by
  induction items with
  | nil => rfl
  | cons it rest ih =>
    simp only [dropSelection, Bool.not_true, Bool.false_and, Bool.false_eq_true, if_false, ih,
      List.filter_cons]
    cases it.isDevice <;> simp

theorem dropSelection_false (items : List Item) :
    dropSelection false items = remainingItems items := by
  induction items with
  | nil => rfl
  | cons it rest ih =>
    unfold remainingItems at ih ⊢
    by_cases hsrc : it.isSource = true
    · simp [dropSelection, hsrc, dropSelection_true, List.eraseP_cons]
    · have hsrc2 : it.isSource = false := by simpa using hsrc
      simp only [dropSelection, hsrc2, Bool.and_false, Bool.false_eq_true, if_false, ih,
        List.eraseP_cons, cond_false, List.filter_cons]
      cases it.isDevice <;> simp

theorem foldl_rootStep (separator : String) (items : List Item) :
    ∀ r : String, items.foldl (rootStep separator) r
      = (match (items.filter Item.isRoot).getLast? with
        | some it => it.value ++ separator
        | none => r) := by
  induction items with
  | nil => intro r; rfl
  | cons it rest ih =>
    intro r
    rw [List.foldl_cons, ih]
    by_cases hroot : it.isRoot = true
    · simp only [rootStep, hroot, if_true, List.filter_cons]
      cases hf : rest.filter Item.isRoot with
      | nil => simp
      | cons x xs =>
        rw [List.getLast?_cons_cons]
        cases hg : (x :: xs).getLast? with
        | none => simp at hg
        | some y => rfl
    · have : it.isRoot = false := by simpa using hroot
      simp [rootStep, this, List.filter_cons]

theorem String_append_ne_empty (r v : String) (h : v ≠ "") : r ++ v ≠ "" := by
  intro he
  apply h
  have h1 : (r ++ v).data = [] := by rw [he]
  rw [String.data_append] at h1
  exact String.ext (List.append_eq_nil.1 h1).2

/-! ### `Open` on well formed command lines -/

theorem scanArguments_items (b : Backend Cap) (items : List Item)
    (hwf : ∀ it ∈ items, it.paired) :
    scanArguments b (tokensOf items)
      = Except.ok (items.foldl (itemStep b (lastRoot b.separator items)) (Scan.init 0)) := by
  have hroot := rootLoop_items b items hwf [] "" (tokensOf items).length (le_refl _)
  have hscan := scanLoop_items b (lastRoot b.separator items) items hwf [] (Scan.init 0)
    (tokensOf items).length rfl (le_refl _)
  simp only [List.nil_append, List.length_nil] at hroot hscan
  rw [foldl_rootStep] at hroot
  unfold scanArguments
  rw [hroot]
  simp only [lastRoot] at hscan ⊢
  exact hscan

/-- The locals of `Open` after the parsing of a well formed command line. -/
theorem scanArguments_fields (b : Backend Cap) (items : List Item)
    (hwf : ∀ it ∈ items, it.paired) :
    ∃ s : Scan, scanArguments b (tokensOf items) = Except.ok s
      ∧ s.device = parsedDevice b items
      ∧ s.fx = parsedFloat b "-fx" items ∧ s.fy = parsedFloat b "-fy" items
      ∧ s.cx = parsedFloat b "-cx" items ∧ s.cy = parsedFloat b "-cy" items
      ∧ s.file_found = (firstSource items).isSome
      ∧ s.input_video_file = (match firstSource items with
          | some it => if it.isFlag "-f" then lastRoot b.separator items ++ it.value else ""
          | none => "")
      ∧ s.input_sequence_directory = (match firstSource items with
          | some it => if it.isFlag "-fdir" then lastRoot b.separator items ++ it.value else ""
          | none => "")
      ∧ eraseLoop s.valid (tokensOf items).length (tokensOf items)
          = tokensOf (remainingItems items) := by
  refine ⟨_, scanArguments_items b items hwf, ?_, ?_, ?_, ?_, ?_, ?_⟩
  · rw [foldl_itemStep_device]; rfl
  · rw [foldl_itemStep_fx]; rfl
  · rw [foldl_itemStep_fy]; rfl
  · rw [foldl_itemStep_cx]; rfl
  · rw [foldl_itemStep_cy]; rfl
  · obtain ⟨h1, h2, h3⟩ := foldl_itemStep_source b (lastRoot b.separator items) items
      (Scan.init 0) rfl
    refine ⟨h1, h2, h3, ?_⟩
    rw [eraseLoop_eq_keepValid _ _ (by rw [foldl_itemStep_valid_length]; simp [Scan.init])]
    have := foldl_itemStep_keepValid b (lastRoot b.separator items) items (Scan.init 0) [] rfl
    simp only [List.nil_append] at this
    rw [this]
    simp [Scan.init, keepValid, dropSelection_false items]

theorem firstSource_isSource {items : List Item} {it : Item} (h : firstSource items = some it) :
    it.isSource = true := by
  unfold firstSource at h
  exact List.find?_some h

theorem isSource_cases {it : Item} (h : it.isSource = true) :
    (it.isFlag "-f" = true ∧ it.isFlag "-fdir" = false)
      ∨ (it.isFlag "-f" = false ∧ it.isFlag "-fdir" = true) := by
  cases it with
  | plain t => simp [Item.isSource] at h
  | flag f v =>
    simp only [Item.isSource, Bool.or_eq_true, decide_eq_true_eq] at h
    rcases h with rfl | rfl <;> simp [Item.isFlag]

theorem firstSource_value_ne {items : List Item} (hwf : ∀ it ∈ items, it.wellFormed)
    {it : Item} (h : firstSource items = some it) : it.value ≠ "" := by
  have hm : it ∈ items := List.mem_of_find?_eq_some h
  have hs := firstSource_isSource h
  cases it with
  | plain t => simp [Item.isSource] at hs
  | flag f v => exact (hwf _ hm).2.2

/-- On a command line of flags with their values `Open` does what the guarded
dispatch rule says. -/
theorem Open_eq_dispatchGuarded (b : Backend Cap) (st : State Cap) (items : List Item)
    (hp : ∀ it ∈ items, it.paired) :
    Open b st (tokensOf items) = Except.ok (dispatchGuarded b st items) := by
  obtain ⟨s, hs, hd, hfx, hfy, hcx, hcy, hff, hvf, hsd, her⟩ := scanArguments_fields b items hp
  unfold Open
  rw [hs]
  simp only [her, hd, hfx, hfy, hcx, hcy, hff, hvf, hsd]
  unfold dispatchGuarded
  by_cases hdev : parsedDevice b items = -1
  · simp only [hdev, ne_eq, not_true_eq_false, if_false]
    cases hsrc : firstSource items with
    | none => simp [atDispatch, hsrc]
    | some it =>
      by_cases hne : lastRoot b.separator items ++ it.value = ""
      · rcases isSource_cases (firstSource_isSource hsrc) with ⟨h1, h2⟩ | ⟨h1, h2⟩
        · simp [atDispatch, hsrc, h1, h2, hne]
        · simp [atDispatch, hsrc, h1, h2, hne]
      · rcases isSource_cases (firstSource_isSource hsrc) with ⟨h1, h2⟩ | ⟨h1, h2⟩
        · simp [atDispatch, hsrc, h1, h2, hne]
        · simp [atDispatch, hsrc, h1, h2, hne]
  · simp only [ne_eq, hdev, not_false_eq_true, if_true]
    cases hsrc : firstSource items <;> simp [atDispatch, hsrc]

/-- With values that are not empty the guard never fires. -/
theorem dispatchGuarded_eq_dispatchRule (b : Backend Cap) (st : State Cap) (items : List Item)
    (hwf : ∀ it ∈ items, it.wellFormed) :
    dispatchGuarded b st items = dispatchRule b st items := by
  unfold dispatchGuarded dispatchRule
  cases hsrc : firstSource items with
  | none => rfl
  | some it =>
    have hne := String_append_ne_empty (lastRoot b.separator items) it.value
      (firstSource_value_ne hwf hsrc)
    simp [hne]

/-- On a well formed command line `Open` does what the dispatch rule says. -/
theorem Open_eq_dispatchRule (b : Backend Cap) (st : State Cap) (items : List Item)
    (hwf : ∀ it ∈ items, it.wellFormed) :
    Open b st (tokensOf items) = Except.ok (dispatchRule b st items) := by
  rw [Open_eq_dispatchGuarded b st items (fun it h => paired_of_wellFormed (hwf it h)),
    dispatchGuarded_eq_dispatchRule b st items hwf]

theorem firstSource_of_split {items rest1 rest2 : List Item} (it : Item)
    (hitems : items = rest1 ++ it :: rest2) (hrest1 : ∀ x ∈ rest1, x.isSource = false)
    (hit : it.isSource = true) : firstSource items = some it := by
  rw [hitems, firstSource, List.find?_append]
  have : List.find? Item.isSource rest1 = none := by
    rw [List.find?_eq_none]; intro x hx; simp [hrest1 x hx]
  simp [this, hit]

/-- C1, amended: for every token list in which each flag is followed by its
value, a token that is none of the nine flags and may be empty, `Open` binds
the source by the guarded dispatch rule: a parsed device index other than -1
(the last one, when the flag is repeated) opens the webcam even when a path is
present; otherwise the first of the `-f` and `-fdir` flags decides, at the root
prefix followed by its value, provided that path is not empty, and a later one
is ignored; when there is no such flag, or the path of the first one is empty,
it opens nothing, returns false and sets
`no_input_specified`, leaving the frame counter, the capture handle, the image
list, the two source flags and the record of collaborator calls as they were. -/
theorem Open_dispatch (b : Backend Cap) (st : State Cap) (items : List Item)
    (hp : ∀ it ∈ items, it.paired) :
    Open b st (tokensOf items) = Except.ok (dispatchGuarded b st items)
      ∧ (parsedDevice b items ≠ -1 →
          (dispatchGuarded b st items).1
              = (OpenWebcam b (atDispatch b st items) (parsedDevice b items) 640 480
                  (parsedFloat b "-fx" items) (parsedFloat b "-fy" items)
                  (parsedFloat b "-cx" items) (parsedFloat b "-cy" items)).1
            ∧ (dispatchGuarded b st items).2.1
              = (OpenWebcam b (atDispatch b st items) (parsedDevice b items) 640 480
                  (parsedFloat b "-fx" items) (parsedFloat b "-fy" items)
                  (parsedFloat b "-cx" items) (parsedFloat b "-cy" items)).2)
      ∧ (parsedDevice b items = -1 → ∀ v rest1 rest2,
          items = rest1 ++ Item.flag "-f" v :: rest2 → (∀ it ∈ rest1, it.isSource = false) →
          lastRoot b.separator items ++ v ≠ "" →
          (dispatchGuarded b st items).1
              = (OpenVideoFile b (atDispatch b st items) (lastRoot b.separator items ++ v)
                  (parsedFloat b "-fx" items) (parsedFloat b "-fy" items)
                  (parsedFloat b "-cx" items) (parsedFloat b "-cy" items)).1
            ∧ (dispatchGuarded b st items).2.1
              = (OpenVideoFile b (atDispatch b st items) (lastRoot b.separator items ++ v)
                  (parsedFloat b "-fx" items) (parsedFloat b "-fy" items)
                  (parsedFloat b "-cx" items) (parsedFloat b "-cy" items)).2)
      ∧ (parsedDevice b items = -1 → ∀ v rest1 rest2,
          items = rest1 ++ Item.flag "-fdir" v :: rest2 → (∀ it ∈ rest1, it.isSource = false) →
          lastRoot b.separator items ++ v ≠ "" →
          (dispatchGuarded b st items).1
              = (OpenImageSequence b (atDispatch b st items) (lastRoot b.separator items ++ v)
                  (parsedFloat b "-fx" items) (parsedFloat b "-fy" items)
                  (parsedFloat b "-cx" items) (parsedFloat b "-cy" items)).1
            ∧ (dispatchGuarded b st items).2.1
              = (OpenImageSequence b (atDispatch b st items) (lastRoot b.separator items ++ v)
                  (parsedFloat b "-fx" items) (parsedFloat b "-fy" items)
                  (parsedFloat b "-cx" items) (parsedFloat b "-cy" items)).2)
      ∧ (parsedDevice b items = -1 →
          ((∀ it ∈ items, it.isSource = false)
            ∨ ∃ it rest1 rest2, items = rest1 ++ it :: rest2
                ∧ (∀ x ∈ rest1, x.isSource = false) ∧ it.isSource = true
                ∧ lastRoot b.separator items ++ it.value = "") →
          (dispatchGuarded b st items).1 = false
            ∧ (dispatchGuarded b st items).2.1.no_input_specified = true
            ∧ (dispatchGuarded b st items).2.1.frame_num = st.frame_num
            ∧ (dispatchGuarded b st items).2.1.capture = st.capture
            ∧ (dispatchGuarded b st items).2.1.image_files = st.image_files
            ∧ (dispatchGuarded b st items).2.1.is_webcam = st.is_webcam
            ∧ (dispatchGuarded b st items).2.1.is_image_seq = st.is_image_seq
            ∧ (dispatchGuarded b st items).2.1.log = st.log) := by
  refine ⟨Open_eq_dispatchGuarded b st items hp, ?_, ?_, ?_, ?_⟩
  · intro hdev
    simp [dispatchGuarded, hdev, atDispatch]
  · intro hdev v rest1 rest2 hitems hrest1 hne
    have hsrc := firstSource_of_split (Item.flag "-f" v) hitems hrest1
      (by simp [Item.isSource])
    have hne2 : lastRoot b.separator items ++ (Item.flag "-f" v).value ≠ "" := hne
    simp [dispatchGuarded, hdev, hsrc, atDispatch, Item.isFlag, hne2]
    simp [Item.value]
  · intro hdev v rest1 rest2 hitems hrest1 hne
    have hsrc := firstSource_of_split (Item.flag "-fdir" v) hitems hrest1
      (by simp [Item.isSource])
    have hne2 : lastRoot b.separator items ++ (Item.flag "-fdir" v).value ≠ "" := hne
    simp [dispatchGuarded, hdev, hsrc, atDispatch, Item.isFlag, hne2]
    simp [Item.value]
  · intro hdev hcase
    rcases hcase with hnone | ⟨it, rest1, rest2, hitems, hrest1, hit, hempty⟩
    · have hsrc : firstSource items = none := by
        rw [firstSource, List.find?_eq_none]; intro x hx; simp [hnone x hx]
      simp [dispatchGuarded, hdev, hsrc, atDispatch]
    · have hsrc := firstSource_of_split it hitems hrest1 hit
      simp [dispatchGuarded, hdev, hsrc, atDispatch, hempty]

theorem tokensOf_sublist {l1 l2 : List Item} (h : List.Sublist l1 l2) :
    List.Sublist (tokensOf l1) (tokensOf l2) := by
  induction h with
  | slnil => exact List.Sublist.refl _
  | cons a _ ih =>
    simp only [tokensOf]
    exact ih.trans (List.sublist_append_right _ _)
  | cons₂ a _ ih =>
    simp only [tokensOf]
    exact List.Sublist.append (List.Sublist.refl _) ih

/-- C2, amended: on a token list in which each flag is followed by its value,
`Open` leaves in the vector every token but the first `-f` or `-fdir` flag with
its value and each `-device` flag with its value; what is left keeps its order.
A later `-f` or `-fdir` flag stays, as do `-fx`, `-fy`, `-cx`, `-cy`, `-root` and
`-inroot`. -/
theorem Open_remaining_tokens (b : Backend Cap) (st : State Cap) (items : List Item)
    (hwf : ∀ it ∈ items, it.wellFormed) :
    (∃ (r : Bool) (st2 : State Cap), Open b st (tokensOf items)
        = Except.ok (r, st2,
            tokensOf ((items.eraseP Item.isSource).filter (fun it => !it.isDevice))))
      ∧ List.Sublist (tokensOf ((items.eraseP Item.isSource).filter (fun it => !it.isDevice)))
          (tokensOf items) := by
  constructor
  · obtain ⟨s, hs, -, -, -, -, -, -, -, -, her⟩ := scanArguments_fields b items (fun it h => paired_of_wellFormed (hwf it h))
    unfold Open
    rw [hs]
    simp only [her]
    unfold remainingItems
    split_ifs <;> exact ⟨_, _, rfl⟩
  · exact tokensOf_sublist ((List.filter_sublist _).trans (List.eraseP_sublist _))

/-- C8, amended: on a token list in which each flag is followed by its value, the
root prefix the prepass computes is the value of the last `-root` or `-inroot`
flag followed by the separator (empty without such a flag), and the path of the
first `-f` or `-fdir` flag is that prefix followed by the value of the flag. -/
theorem Open_root_is_last (b : Backend Cap) (items : List Item)
    (hwf : ∀ it ∈ items, it.wellFormed) :
    rootLoop b (tokensOf items) (tokensOf items).length 0 ""
        = Except.ok (lastRoot b.separator items)
      ∧ ∃ s : Scan, scanArguments b (tokensOf items) = Except.ok s
          ∧ ∀ it, firstSource items = some it →
              (it.isFlag "-f" = true →
                s.input_video_file = lastRoot b.separator items ++ it.value)
              ∧ (it.isFlag "-fdir" = true →
                s.input_sequence_directory = lastRoot b.separator items ++ it.value) := by
  constructor
  · have hroot := rootLoop_items b items (fun it h => paired_of_wellFormed (hwf it h)) [] "" (tokensOf items).length (le_refl _)
    simp only [List.nil_append, List.length_nil] at hroot
    rw [hroot, foldl_rootStep]
    rfl
  · obtain ⟨s, hs, -, -, -, -, -, -, hvf, hsd, -⟩ := scanArguments_fields b items (fun it h => paired_of_wellFormed (hwf it h))
    refine ⟨s, hs, ?_⟩
    intro it hit
    rw [hit] at hvf hsd
    constructor
    · intro h; simpa [h] using hvf
    · intro h; simpa [h] using hsd

/-! ### The stored intrinsics and the sentinel -/

theorem fin_ne_neg_one {q : ℚ} (h : 0 ≤ q) : Fp.fin q ≠ Fp.fin (-1) := by
  intro he
  injection he with he
  rw [he] at h
  norm_num at h

theorem default_centre_nonneg {n : ℤ} (h : 0 ≤ n) : 0 ≤ F32.div (F32.ofInt n) 2 := by
  unfold F32.div F32.ofInt
  apply Fp.rnd_nonneg
  apply div_nonneg (Fp.rnd_nonneg _ (by exact_mod_cast h)) (by norm_num)

theorem default_focal_nonneg {w h : ℤ} (hw : 0 ≤ w) (hh : 0 ≤ h) :
    0 ≤ F32.div (F32.add (F32.mul 500 (F32.div (F32.ofInt w) 640))
      (F32.mul 500 (F32.div (F32.ofInt h) 480))) 2 := by
  have h1 : 0 ≤ F32.mul 500 (F32.div (F32.ofInt w) 640) := by
    unfold F32.mul F32.div F32.ofInt
    apply Fp.rnd_nonneg
    apply mul_nonneg (by norm_num)
    apply Fp.rnd_nonneg
    apply div_nonneg (Fp.rnd_nonneg _ (by exact_mod_cast hw)) (by norm_num)
  have h2 : 0 ≤ F32.mul 500 (F32.div (F32.ofInt h) 480) := by
    unfold F32.mul F32.div F32.ofInt
    apply Fp.rnd_nonneg
    apply mul_nonneg (by norm_num)
    apply Fp.rnd_nonneg
    apply div_nonneg (Fp.rnd_nonneg _ (by exact_mod_cast hh)) (by norm_num)
  unfold F32.div F32.add
  apply Fp.rnd_nonneg
  apply div_nonneg (Fp.rnd_nonneg _ (add_nonneg h1 h2)) (by norm_num)

/-- The sentinel among the intrinsics `SetCameraIntrinsics` stores, for a frame
size that is not negative. -/
theorem SetCameraIntrinsics_sentinel (st : State Cap) (fx fy cx cy : Fp)
    (hw : 0 ≤ st.frame_width) (hh : 0 ≤ st.frame_height) :
    (SetCameraIntrinsics st fx fy cx cy).fx ≠ Fp.fin (-1)
      ∧ (SetCameraIntrinsics st fx fy cx cy).cx ≠ Fp.fin (-1)
      ∧ ((SetCameraIntrinsics st fx fy cx cy).fy = Fp.fin (-1)
          ↔ fx ≠ Fp.fin (-1) ∧ fy = Fp.fin (-1))
      ∧ ((SetCameraIntrinsics st fx fy cx cy).cy = Fp.fin (-1)
          ↔ cx ≠ Fp.fin (-1) ∧ cy = Fp.fin (-1)) := by
  have hf := fin_ne_neg_one (default_focal_nonneg hw hh)
  have hcx := fin_ne_neg_one (default_centre_nonneg hw)
  have hcy := fin_ne_neg_one (default_centre_nonneg hh)
  unfold SetCameraIntrinsics
  by_cases hc : cx = Fp.fin (-1) <;> by_cases hx : fx = Fp.fin (-1) <;>
    simp [hc, hx, hf, hcx, hcy]

theorem SetCameraIntrinsics_frame (st : State Cap) (fx fy cx cy : Fp) :
    (SetCameraIntrinsics st fx fy cx cy).frame_width = st.frame_width
      ∧ (SetCameraIntrinsics st fx fy cx cy).frame_height = st.frame_height := by
  unfold SetCameraIntrinsics
  by_cases hc : cx = Fp.fin (-1) <;> by_cases hx : fx = Fp.fin (-1) <;> simp [hc, hx]

/-- Each opener that succeeds leaves the intrinsics `SetCameraIntrinsics` computes
from the frame size it leaves. -/
theorem OpenWebcam_intrinsics {b : Backend Cap} {st st2 : State Cap}
    {device image_width image_height : ℤ} {fx fy cx cy : Fp}
    (h : OpenWebcam b st device image_width image_height fx fy cx cy = (true, st2)) :
    ∃ st1 : State Cap, st2.fx = (SetCameraIntrinsics st1 fx fy cx cy).fx
      ∧ st2.fy = (SetCameraIntrinsics st1 fx fy cx cy).fy
      ∧ st2.cx = (SetCameraIntrinsics st1 fx fy cx cy).cx
      ∧ st2.cy = (SetCameraIntrinsics st1 fx fy cx cy).cy
      ∧ st2.frame_width = (SetCameraIntrinsics st1 fx fy cx cy).frame_width
      ∧ st2.frame_height = (SetCameraIntrinsics st1 fx fy cx cy).frame_height := by
  unfold OpenWebcam at h
  simp only at h
  split_ifs at h
  · simp at h
  · simp at h
  · have := (Prod.mk.inj h).2
    subst this
    exact ⟨_, rfl, rfl, rfl, rfl, rfl, rfl⟩

theorem OpenVideoFile_intrinsics {b : Backend Cap} {st st2 : State Cap} {video_file : String}
    {fx fy cx cy : Fp} (h : OpenVideoFile b st video_file fx fy cx cy = (true, st2)) :
    ∃ st1 : State Cap, st2.fx = (SetCameraIntrinsics st1 fx fy cx cy).fx
      ∧ st2.fy = (SetCameraIntrinsics st1 fx fy cx cy).fy
      ∧ st2.cx = (SetCameraIntrinsics st1 fx fy cx cy).cx
      ∧ st2.cy = (SetCameraIntrinsics st1 fx fy cx cy).cy
      ∧ st2.frame_width = (SetCameraIntrinsics st1 fx fy cx cy).frame_width
      ∧ st2.frame_height = (SetCameraIntrinsics st1 fx fy cx cy).frame_height := by
  unfold OpenVideoFile at h
  simp only at h
  split_ifs at h
  · simp at h
  · have := (Prod.mk.inj h).2
    subst this
    exact ⟨_, rfl, rfl, rfl, rfl, rfl, rfl⟩

theorem OpenImageSequence_intrinsics {b : Backend Cap} {st st2 : State Cap}
    {directory : String} {fx fy cx cy : Fp}
    (h : OpenImageSequence b st directory fx fy cx cy = (true, st2)) :
    ∃ st1 : State Cap, st2.fx = (SetCameraIntrinsics st1 fx fy cx cy).fx
      ∧ st2.fy = (SetCameraIntrinsics st1 fx fy cx cy).fy
      ∧ st2.cx = (SetCameraIntrinsics st1 fx fy cx cy).cx
      ∧ st2.cy = (SetCameraIntrinsics st1 fx fy cx cy).cy
      ∧ st2.frame_width = (SetCameraIntrinsics st1 fx fy cx cy).frame_width
      ∧ st2.frame_height = (SetCameraIntrinsics st1 fx fy cx cy).frame_height := by
  unfold OpenImageSequence at h
  simp only at h
  split at h
  · simp at h
  · have := (Prod.mk.inj h).2
    subst this
    exact ⟨_, rfl, rfl, rfl, rfl, rfl, rfl⟩

theorem sentinel_of_opened (st1 : State Cap) {st2 : State Cap} {fx fy cx cy : Fp}
    (h1 : st2.fx = (SetCameraIntrinsics st1 fx fy cx cy).fx)
    (h2 : st2.fy = (SetCameraIntrinsics st1 fx fy cx cy).fy)
    (h3 : st2.cx = (SetCameraIntrinsics st1 fx fy cx cy).cx)
    (h4 : st2.cy = (SetCameraIntrinsics st1 fx fy cx cy).cy)
    (h5 : st2.frame_width = (SetCameraIntrinsics st1 fx fy cx cy).frame_width)
    (h6 : st2.frame_height = (SetCameraIntrinsics st1 fx fy cx cy).frame_height)
    (hw : 0 ≤ st2.frame_width) (hh : 0 ≤ st2.frame_height) :
    st2.fx ≠ Fp.fin (-1) ∧ st2.cx ≠ Fp.fin (-1)
      ∧ (st2.fy = Fp.fin (-1) ↔ fx ≠ Fp.fin (-1) ∧ fy = Fp.fin (-1))
      ∧ (st2.cy = Fp.fin (-1) ↔ cx ≠ Fp.fin (-1) ∧ cy = Fp.fin (-1)) := by
  obtain ⟨e1, e2⟩ := SetCameraIntrinsics_frame st1 fx fy cx cy
  rw [h5, e1] at hw
  rw [h6, e2] at hh
  rw [h1, h2, h3, h4]
  exact SetCameraIntrinsics_sentinel st1 fx fy cx cy hw hh

/-- C9, amended: after a successful `Open` that leaves a frame size that is not
negative, the stored `fx` and `cx` are never the sentinel -1; the stored `fy`
is -1 exactly when the parsed `-fx` override is not -1 while the parsed `-fy`
is -1 (omitted, or given as -1), and likewise `cy` with `-cx` and `-cy`. -/
theorem Open_intrinsics_sentinel (b : Backend Cap) (st st2 : State Cap)
    (arguments rest : List String) (h : Open b st arguments = Except.ok (true, st2, rest))
    (hw : 0 ≤ st2.frame_width) (hh : 0 ≤ st2.frame_height) :
    ∃ s : Scan, scanArguments b arguments = Except.ok s
      ∧ st2.fx ≠ Fp.fin (-1) ∧ st2.cx ≠ Fp.fin (-1)
      ∧ (st2.fy = Fp.fin (-1) ↔ s.fx ≠ Fp.fin (-1) ∧ s.fy = Fp.fin (-1))
      ∧ (st2.cy = Fp.fin (-1) ↔ s.cx ≠ Fp.fin (-1) ∧ s.cy = Fp.fin (-1)) := by
  unfold Open at h
  cases hs : scanArguments b arguments with
  | error e => rw [hs] at h; simp at h
  | ok s =>
    rw [hs] at h
    refine ⟨s, rfl, ?_⟩
    simp only at h
    split_ifs at h
    · simp only [Except.ok.injEq, Prod.mk.injEq] at h
      obtain ⟨st1, h1, h2, h3, h4, h5, h6⟩ := OpenWebcam_intrinsics (Prod.ext h.1 h.2.1)
      exact sentinel_of_opened st1 h1 h2 h3 h4 h5 h6 hw hh
    · simp only [Except.ok.injEq, Prod.mk.injEq] at h
      obtain ⟨st1, h1, h2, h3, h4, h5, h6⟩ := OpenVideoFile_intrinsics (Prod.ext h.1 h.2.1)
      exact sentinel_of_opened st1 h1 h2 h3 h4 h5 h6 hw hh
    · simp only [Except.ok.injEq, Prod.mk.injEq] at h
      obtain ⟨st1, h1, h2, h3, h4, h5, h6⟩ := OpenImageSequence_intrinsics (Prod.ext h.1 h.2.1)
      exact sentinel_of_opened st1 h1 h2 h3 h4 h5 h6 hw hh
    · simp at h

theorem Open_dispatch_witness :
    (∀ it ∈ [Item.flag "-f" "a.mp4", Item.flag "-fx" "500", Item.plain "-verbose"],
        it.paired)
      ∧ outcome (Open sampleBackend sampleState ["-f", "a.mp4", "-fx", "500", "-verbose"])
        = some (true, ["-fx", "500", "-verbose"],
            [Call.capOpenFile "a.mp4", Call.capIsOpened, Call.capGet CapProp.fps,
              Call.capGet CapProp.frameWidth, Call.capGet CapProp.frameHeight,
              Call.capGet CapProp.frameCount])
      ∧ outcome (Open sampleBackend sampleState ["-fdir", "imgs", "-device", "2", "-f", "a.mp4"])
        = some (true, ["-f", "a.mp4"],
            [Call.capOpenDevice 2, Call.capSet CapProp.frameWidth 640,
              Call.capSet CapProp.frameHeight 480, Call.capGet CapProp.frameWidth,
              Call.capGet CapProp.frameHeight, Call.capIsOpened, Call.capGet CapProp.fps,
              Call.currentDateTime, Call.getTickCount])
      ∧ outcome (Open sampleBackend sampleState ["-fdir", "", "-f", "a.mp4", "-device", "-1"])
        = some (false, ["-f", "a.mp4"], []) :=
  ⟨by decide, by
    have h := (Open_dispatch sampleBackend sampleState
      [Item.flag "-f" "a.mp4", Item.flag "-fx" "500", Item.plain "-verbose"] (by decide)).1
    have ht : tokensOf [Item.flag "-f" "a.mp4", Item.flag "-fx" "500", Item.plain "-verbose"]
        = ["-f", "a.mp4", "-fx", "500", "-verbose"] := rfl
    rw [ht] at h
    rw [h]
    decide, by
    have h := (Open_dispatch sampleBackend sampleState
      [Item.flag "-fdir" "imgs", Item.flag "-device" "2", Item.flag "-f" "a.mp4"]
      (by decide)).1
    have ht : tokensOf [Item.flag "-fdir" "imgs", Item.flag "-device" "2",
        Item.flag "-f" "a.mp4"] = ["-fdir", "imgs", "-device", "2", "-f", "a.mp4"] := rfl
    rw [ht] at h
    rw [h]
    decide, by
    have h := (Open_dispatch sampleBackend sampleState
      [Item.flag "-fdir" "", Item.flag "-f" "a.mp4", Item.flag "-device" "-1"]
      (by decide)).1
    have ht : tokensOf [Item.flag "-fdir" "", Item.flag "-f" "a.mp4",
        Item.flag "-device" "-1"] = ["-fdir", "", "-f", "a.mp4", "-device", "-1"] := rfl
    rw [ht] at h
    rw [h]
    decide⟩

/-- C1, as stated, fails: on `-f "" -fdir imgs` every flag is followed by its
value and `-f` is the first of the two source flags, yet `Open` opens no video
file: it makes no collaborator call, returns false and sets
`no_input_specified`, where the rule of the claim opens the video file at the
empty path. -/
theorem Open_skips_empty_path :
    (∀ it ∈ [Item.flag "-f" "", Item.flag "-fdir" "imgs"], it.paired)
      ∧ tokensOf [Item.flag "-f" "", Item.flag "-fdir" "imgs"] = ["-f", "", "-fdir", "imgs"]
      ∧ outcome (Open sampleBackend sampleState ["-f", "", "-fdir", "imgs"])
        = some (false, ["-fdir", "imgs"], [])
      ∧ (∃ st2 rest, Open sampleBackend sampleState ["-f", "", "-fdir", "imgs"]
          = Except.ok (false, st2, rest) ∧ st2.no_input_specified = true)
      ∧ outcome (Except.ok (dispatchRule sampleBackend sampleState
          [Item.flag "-f" "", Item.flag "-fdir" "imgs"]))
        = some (true, ["-fdir", "imgs"],
            [Call.capOpenFile "", Call.capIsOpened, Call.capGet CapProp.fps,
              Call.capGet CapProp.frameWidth, Call.capGet CapProp.frameHeight,
              Call.capGet CapProp.frameCount]) := by
  refine ⟨by decide, rfl, by decide, ?_, by decide⟩
  have h := Open_eq_dispatchGuarded sampleBackend sampleState
    [Item.flag "-f" "", Item.flag "-fdir" "imgs"] (by decide)
  refine ⟨(dispatchGuarded sampleBackend sampleState
      [Item.flag "-f" "", Item.flag "-fdir" "imgs"]).2.1,
    (dispatchGuarded sampleBackend sampleState
      [Item.flag "-f" "", Item.flag "-fdir" "imgs"]).2.2, ?_, ?_⟩
  · rw [show (["-f", "", "-fdir", "imgs"] : List String)
        = tokensOf [Item.flag "-f" "", Item.flag "-fdir" "imgs"] from rfl, h]
    congr 1
  · decide

/-- C2, as stated, fails: after `Open` on `-f a.mp4 -fdir b/` the file is
selected and the vector still holds `-fdir b/`. -/
theorem Open_keeps_later_source_flag :
    outcome (Open sampleBackend sampleState ["-f", "a.mp4", "-fdir", "b/"])
      = some (true, ["-fdir", "b/"],
          [Call.capOpenFile "a.mp4", Call.capIsOpened, Call.capGet CapProp.fps,
            Call.capGet CapProp.frameWidth, Call.capGet CapProp.frameHeight,
            Call.capGet CapProp.frameCount]) := by
  decide

theorem Open_remaining_tokens_witness :
    (∀ it ∈ [Item.flag "-f" "a.mp4", Item.flag "-device" "-1", Item.flag "-cx" "320",
        Item.flag "-fdir" "b/"], it.wellFormed)
      ∧ ∃ (r : Bool) (st2 : State Bool),
          Open sampleBackend sampleState
              ["-f", "a.mp4", "-device", "-1", "-cx", "320", "-fdir", "b/"]
            = Except.ok (r, st2, ["-cx", "320", "-fdir", "b/"]) :=
  ⟨by decide,
    (Open_remaining_tokens sampleBackend sampleState
      [Item.flag "-f" "a.mp4", Item.flag "-device" "-1", Item.flag "-cx" "320",
        Item.flag "-fdir" "b/"] (by decide)).1⟩

/-- C8, as stated, fails: with two `-root` flags the file is opened under the
second root, not under the first. -/
theorem Open_uses_last_root :
    outcome (Open sampleBackend sampleState ["-root", "a", "-root", "b", "-f", "v.mp4"])
        = some (true, ["-root", "a", "-root", "b"],
            [Call.capOpenFile "b/v.mp4", Call.capIsOpened, Call.capGet CapProp.fps,
              Call.capGet CapProp.frameWidth, Call.capGet CapProp.frameHeight,
              Call.capGet CapProp.frameCount])
      ∧ firstRoot "/" [Item.flag "-root" "a", Item.flag "-root" "b", Item.flag "-f" "v.mp4"]
          ++ "v.mp4" = "a/v.mp4" := by
  decide

theorem Open_root_is_last_witness :
    (∀ it ∈ [Item.flag "-root" "a", Item.flag "-inroot" "b", Item.flag "-f" "v.mp4"],
        it.wellFormed)
      ∧ rootLoop sampleBackend ["-root", "a", "-inroot", "b", "-f", "v.mp4"] 6 0 ""
        = Except.ok "b/" :=
  ⟨by decide,
    (Open_root_is_last sampleBackend
      [Item.flag "-root" "a", Item.flag "-inroot" "b", Item.flag "-f" "v.mp4"] (by decide)).1⟩

/-- C9, as stated, fails: `-fx 500` without `-fy` opens the file and leaves the
stored `fy` at -1. -/
theorem Open_leaves_fy_unset :
    ∃ (st2 : State Bool) (rest : List String),
      Open sampleBackend sampleState ["-f", "a.mp4", "-fx", "500"] = Except.ok (true, st2, rest)
        ∧ st2.fx = Fp.fin 500 ∧ st2.fy = Fp.fin (-1) := by
  have h := Open_eq_dispatchRule sampleBackend sampleState
    [Item.flag "-f" "a.mp4", Item.flag "-fx" "500"] (by decide)
  refine ⟨(dispatchRule sampleBackend sampleState
      [Item.flag "-f" "a.mp4", Item.flag "-fx" "500"]).2.1,
    (dispatchRule sampleBackend sampleState
      [Item.flag "-f" "a.mp4", Item.flag "-fx" "500"]).2.2, ?_, ?_, ?_⟩
  · rw [show (["-f", "a.mp4", "-fx", "500"] : List String)
        = tokensOf [Item.flag "-f" "a.mp4", Item.flag "-fx" "500"] from rfl, h]
    congr 1
  · decide
  · decide

theorem Open_intrinsics_sentinel_witness :
    Open sampleBackend sampleState ["-f", "a.mp4"]
        = Except.ok (true, (dispatchRule sampleBackend sampleState [Item.flag "-f" "a.mp4"]).2.1,
            [])
      ∧ (dispatchRule sampleBackend sampleState [Item.flag "-f" "a.mp4"]).2.1.fx ≠ Fp.fin (-1)
      ∧ (dispatchRule sampleBackend sampleState [Item.flag "-f" "a.mp4"]).2.1.cx
          ≠ Fp.fin (-1) := by
  have h : Open sampleBackend sampleState ["-f", "a.mp4"]
      = Except.ok (true, (dispatchRule sampleBackend sampleState [Item.flag "-f" "a.mp4"]).2.1,
          []) :=
    Open_eq_dispatchRule sampleBackend sampleState [Item.flag "-f" "a.mp4"] (by decide)
  obtain ⟨s, -, h1, h2, -⟩ := Open_intrinsics_sentinel sampleBackend sampleState _ _ _ h
    (by decide) (by decide)
  exact ⟨h, h1, h2⟩

theorem image_sequence_pulls_witness :
    OpenImageSequence sampleBackend sampleState "imgs" unset unset unset unset
        = (true, (OpenImageSequence sampleBackend sampleState "imgs" unset unset unset unset).2)
      ∧ IsOpened sampleBackend
          (pulls sampleBackend 2
            (OpenImageSequence sampleBackend sampleState "imgs" unset unset unset unset).2)
        = true
      ∧ (GetNextFrame sampleBackend
          (pulls sampleBackend 2
            (OpenImageSequence sampleBackend sampleState "imgs" unset unset unset unset).2)).1
        = sampleBackend.imread "imgs/c.bmp" := by
  have h : OpenImageSequence sampleBackend sampleState "imgs" unset unset unset unset
      = (true, (OpenImageSequence sampleBackend sampleState "imgs" unset unset unset unset).2) :=
    Prod.ext (by decide) rfl
  have hfiles : (OpenImageSequence sampleBackend sampleState "imgs" unset unset unset
      unset).2.image_files = ["imgs/a.jpg", "imgs/b.png", "imgs/c.bmp"] := by decide
  obtain ⟨-, -, hk, -⟩ := image_sequence_pulls sampleBackend sampleState _ "imgs" unset unset
    unset unset h
  obtain ⟨h1, h2, -⟩ := hk 2 (by rw [hfiles]; decide)
  rw [hfiles] at h2
  exact ⟨h, h1, h2⟩

theorem OpenImageSequence_files_witness :
    (OpenImageSequence sampleBackend sampleState "imgs" unset unset unset unset).2.image_files
        = ["imgs/a.jpg", "imgs/b.png", "imgs/c.bmp"]
      ∧ List.Sorted (fun p q : String => p ≤ q) ["imgs/a.jpg", "imgs/b.png", "imgs/c.bmp"] := by
  have hfiles : (OpenImageSequence sampleBackend sampleState "imgs" unset unset unset
      unset).2.image_files = ["imgs/a.jpg", "imgs/b.png", "imgs/c.bmp"] := by decide
  have h := (OpenImageSequence_files sampleBackend sampleState "imgs" unset unset unset unset).1
  rw [hfiles] at h
  exact ⟨hfiles, h⟩

end SequenceCapture

